import Mathlib

/-!
# Verification of the Plague Spread Simulator (`usePlagueInfection.js`)

Shallow embedding of the infection-propagation engine of this repository.
Wall-clock times (milliseconds) and progress values are modelled as
rationals; JavaScript's `Date.now()` and `Math.random()` are supplied to
each operation as explicit parameters (a time stamp, index choices, a
shuffle outcome, a Bernoulli draw).  The shared mutable React state cell
becomes an explicit `SimState` record threaded through the operations.
-/

namespace PlagueMap

/-- A geographic point `{lat, lon}` in degrees. -/
structure Coord where
  lat : ℚ
  lon : ℚ
deriving DecidableEq, Repr

/-- An entity of the roster: `{name, centroid}` as produced by the
geography preprocessor. -/
structure Country where
  name : String
  centroid : Coord
deriving DecidableEq, Repr

/-- A neighbour entry `{name, distance}` of the adjacency list. -/
structure Neighbor where
  name : String
  distance : ℚ
deriving DecidableEq, Repr

/-- One infection record
`{ centroid, progress, startTime, entryPoint }` (the value stored under a
country name in `infectedCountries`). -/
structure InfectionRecord where
  centroid : Coord
  progress : ℚ
  startTime : ℚ
  entryPoint : Coord
deriving DecidableEq, Repr

/-- A transmission edge `{id, from, to, isLongDistance}`.  The JavaScript
fields `from`/`to` are spelled `fromName`/`toName` because `from` is a
Lean keyword. -/
structure TransmissionEdge where
  id : String
  fromName : String
  toName : String
  isLongDistance : Bool
deriving DecidableEq, Repr

/-- The `infectedCountries` object: an association list in insertion
order (JavaScript object keys of this engine are plain string keys, so
enumeration order is insertion order). -/
abbrev InfectionMap := List (String × InfectionRecord)

/-- JavaScript `prev[name]` — first binding of `name`, if any. -/
def lookupKey (m : InfectionMap) (k : String) : Option InfectionRecord :=
  match m.find? (fun p => p.1 == k) with
  | some p => some p.2
  | none => none

/-- JavaScript `name in prev` — key-membership test. -/
def hasKey (m : InfectionMap) (k : String) : Bool :=
  (lookupKey m k).isSome

/-- JavaScript `updated[name] = rec` — replace the binding if the key is present,
append it otherwise (JavaScript object assignment). -/
def setKey (m : InfectionMap) (k : String) (v : InfectionRecord) : InfectionMap :=
  if hasKey m k then m.map (fun p => if p.1 == k then (k, v) else p)
  else m ++ [(k, v)]

/-- The keys of the map, in enumeration order (`Object.keys`). -/
def keysOf (m : InfectionMap) : List String :=
  m.map Prod.fst

/-- Engine configuration with the defaults of `usePlagueInfection`. -/
structure Config where
  totalInfectionTime : ℚ := 900000
  neighborSpreadThreshold : ℚ := 1/2
  neighborSpreadInterval : ℚ := 800
  maxSpreadPerInterval : ℚ := 3
  longDistanceInterval : ℚ := 12000
  longDistanceProbability : ℚ := 2/5
  longDistanceMinDistance : ℚ := 50
  neighborDistance : ℚ := 30
deriving DecidableEq, Repr

/-- The immutable geography loaded once per session: the roster, the
adjacency map, and the `geoDataLoaded` flag. -/
structure Geography where
  countries : List Country
  neighbors : List (String × List Neighbor)
  loaded : Bool
deriving DecidableEq, Repr

/-- JavaScript `neighbors[sourceName] || []`. -/
def neighborsOf (geo : Geography) (n : String) : List Neighbor :=
  match geo.neighbors.find? (fun p => p.1 == n) with
  | some p => p.2
  | none => []

/-- JavaScript `countries.find(c => c.name === n)`. -/
def findCountry (geo : Geography) (n : String) : Option Country :=
  geo.countries.find? (fun c => c.name == n)

/-- The engine's mutable state: the React state cells and refs of the
hook, minus the timer handles (timers are modelled by guarding each tick
on its governing flag). -/
structure SimState where
  infected : InfectionMap
  transmissions : List TransmissionEdge
  connectedPairs : List String
  isRunning : Bool
  isRegressing : Bool
  regressionComplete : Bool
  statsInfected : ℕ
  infectionStartTime : Option ℚ
  regressionStartTime : Option ℚ
deriving DecidableEq, Repr

/-- The state before any operation ran. -/
def initState : SimState :=
  { infected := []
    transmissions := []
    connectedPairs := []
    isRunning := false
    isRegressing := false
    regressionComplete := false
    statsInfected := 0
    infectionStartTime := none
    regressionStartTime := none }

/-- JavaScript's default sort comparison on strings: lexicographic on
the sequences of code units. -/
def charListLe : List Char → List Char → Bool
  | [], _ => true
  | _ :: _, [] => false
  | a :: as, b :: bs =>
    if a.toNat < b.toNat then true
    else if b.toNat < a.toNat then false
    else charListLe as bs

/-- String comparison used by `[a, b].sort()`. -/
def strLe (a b : String) : Bool :=
  charListLe a.toList b.toList

/-- Function `getPairKey`: the two names sorted (JavaScript default string sort)
and joined by `"-"`. -/
def getPairKey (a b : String) : String :=
  if strLe a b then a ++ "-" ++ b else b ++ "-" ++ a

/-! ## Tick A — progress advancement (lines 75–119) -/

/-- Constant `infectionSpeed = 1.0 / (totalInfectionTime / 6 - 3000)` (lines 30–31). -/
def infectionSpeed (cfg : Config) : ℚ :=
  1 / (cfg.totalInfectionTime / 6 - 3000)

/-- JavaScript `ref.current ? now - ref.current : 0` — elapsed time against an
optional reference timestamp. -/
def globalElapsed (startRef : Option ℚ) (now : ℚ) : ℚ :=
  match startRef with
  | some t => now - t
  | none => 0

/-- Value `timeRatio = Math.min(1, globalElapsed / totalInfectionTime)`. -/
def timeRatio (T : ℚ) (startRef : Option ℚ) (now : ℚ) : ℚ :=
  min 1 (globalElapsed startRef now / T)

/-- Value `speedMultiplier = 0.7 + Math.pow(timeRatio, 2) * 0.8` (line 85). -/
def speedMultiplier (T : ℚ) (startRef : Option ℚ) (now : ℚ) : ℚ :=
  7/10 + (timeRatio T startRef now) ^ 2 * (4/5)

/-- Body of the progress interval for one record (lines 91–108): skip a
saturated record, skip while the transmission is still in flight
(`elapsed < 0`), otherwise recompute
`progress = Math.min(1, elapsed * infectionSpeed * speedMultiplier)`. -/
def progressTickRecord (speed mult now : ℚ) (r : InfectionRecord) : InfectionRecord :=
  if r.progress < 1 then
    if now - r.startTime < 0 then r
    else { r with progress := min 1 ((now - r.startTime) * speed * mult) }
  else r

/-- One firing of the progress interval over the whole map. -/
def progressTickMap (cfg : Config) (startRef : Option ℚ) (now : ℚ)
    (m : InfectionMap) : InfectionMap :=
  m.map fun p =>
    (p.1, progressTickRecord (infectionSpeed cfg)
      (speedMultiplier cfg.totalInfectionTime startRef now) now p.2)

/-- The progress timer only runs while `isRunning` (line 76); the
`changed ? updated : prev` return of the callback never alters the
resulting map content. -/
def progressTickState (cfg : Config) (now : ℚ) (s : SimState) : SimState :=
  if s.isRunning then
    { s with infected := progressTickMap cfg s.infectionStartTime now s.infected }
  else s

/-! ## Regression tick (lines 122–187) -/

/-- Constant `regressionSpeed = 1.0 / 20000` (lines 126–127). -/
def regressionSpeed : ℚ := 1 / 20000

/-- JavaScript `prev[n].startTime || 0` as used by the regression sort comparator. -/
def startTimeOf (m : InfectionMap) (n : String) : ℚ :=
  match lookupKey m n with
  | some r => r.startTime
  | none => 0

/-- JavaScript `Object.keys(prev).sort((a, b) => (prev[b].startTime || 0) -
(prev[a].startTime || 0))` (lines 138–140): the keys in descending
`startTime` order.  JavaScript's built-in sort is stable, so any stable
sort for the induced total preorder computes the same list; we use the
structurally recursive stable `insertionSort`. -/
def regressionOrder (m : InfectionMap) : List String :=
  List.insertionSort (fun a b => startTimeOf m b ≤ startTimeOf m a) (keysOf m)

/-- Value `newProgress` for the entity at position `idx` of the regression
sweep (lines 145–150): stagger of `idx * 30` ms, then a linear decrease
clamped at 0. -/
def regressionNewProgress (elapsed : ℚ) (idx : ℕ) (p : ℚ) : ℚ :=
  max 0 (p - max 0 (elapsed - (idx : ℚ) * 30) * regressionSpeed)

/-- One firing of the regression interval over the map (lines 133–163):
an entity whose new progress is `≤ 0` is deleted, the others keep their
position with the decreased progress. -/
def regressionTickMap (regStart : Option ℚ) (now : ℚ) (m : InfectionMap) :
    InfectionMap :=
  let elapsed := globalElapsed regStart now
  let sorted := regressionOrder m
  m.filterMap fun p =>
    let np := regressionNewProgress elapsed (sorted.indexOf p.1) p.2.progress
    if np ≤ 0 then none else some (p.1, { p.2 with progress := np })

/-- One firing of the regression interval over the whole state: the
timer only exists while `isRegressing` (line 123); the per-entry
`changed` flag of the code is equivalent to the map having changed at
all; when the map is empty the completion branch (lines 171–176) stops
the regression, raises `regressionComplete` and clears the edge log and
the connected-pairs set. -/
def regressionTickState (now : ℚ) (s : SimState) : SimState :=
  if s.isRegressing then
    let mNew := regressionTickMap s.regressionStartTime now s.infected
    let s1 := if mNew ≠ s.infected
      then { s with infected := mNew, statsInfected := mNew.length }
      else s
    if mNew.length = 0 then
      { s1 with isRegressing := false, regressionComplete := true,
                transmissions := [], connectedPairs := [] }
    else s1
  else s

/-! ## `startRegression` (lines 424–444) -/

/-- Operation `startRegression`: refuse when nothing is infected or when
`infectedCount >= countries.length`; otherwise stop the forward spread,
record the regression start time, clear `regressionComplete`, raise
`isRegressing` and return `true`. -/
def startRegression (geo : Geography) (now : ℚ) (s : SimState) :
    Bool × SimState :=
  let infectedCount := s.infected.length
  if infectedCount = 0 ∨ geo.countries.length ≤ infectedCount then
    (false, s)
  else
    (true, { s with isRunning := false,
                    regressionStartTime := some now,
                    regressionComplete := false,
                    isRegressing := true })

/-! ## `startInfection` (lines 382–415) -/

/-- JavaScript `toLowerCase()`; the roster names are ASCII, where
`Char.toLower` agrees with JavaScript. -/
def strToLower (s : String) : String :=
  ⟨s.toList.map Char.toLower⟩

/-- Whether `needle` is a leading part of `hay` (character lists). -/
def charListIsPrefixOf : List Char → List Char → Bool
  | [], _ => true
  | _ :: _, [] => false
  | a :: as, b :: bs => a == b && charListIsPrefixOf as bs

/-- Whether `needle` occurs somewhere inside `hay` (character lists). -/
def charListContainsSub (needle hay : List Char) : Bool :=
  match hay with
  | [] => charListIsPrefixOf needle []
  | _ :: t => charListIsPrefixOf needle hay || charListContainsSub needle t

/-- JavaScript `hay.includes(needle)`. -/
def strIncludes (hay needle : String) : Bool :=
  charListContainsSub needle.toList hay.toList

/-- The seed-resolution chain of `startInfection` (lines 385–397): exact
case-insensitive match, else case-insensitive substring match, else the
roster entry at the random index when the roster is non-empty.
`Math.floor(Math.random() * countries.length)` is always a valid index;
it is modelled by the oracle index `pick` (out-of-range `pick` yields
`none` and corresponds to no actual run). -/
def resolveSeed (countries : List Country) (name : String) (pick : ℕ) :
    Option Country :=
  match countries.find? (fun c => strToLower c.name == strToLower name) with
  | some c => some c
  | none =>
    match countries.find? (fun c => strIncludes (strToLower c.name) (strToLower name)) with
    | some c => some c
    | none => if countries.isEmpty then none else countries.get? pick

/-- The record `startInfection` installs for the resolved seed
(lines 403–410). -/
def seedRecord (c : Country) (now : ℚ) : InfectionRecord :=
  { centroid := c.centroid, progress := 0, startTime := now,
    entryPoint := c.centroid }

/-- Operation `startInfection(countryName)`.  A `null` argument reaches
`countryName.toLowerCase()` inside the first `find` callback and throws
a `TypeError` — but only when the roster is non-empty, because `find` on
an empty array never invokes its callback (and the random fallback is
then also skipped), so with an empty roster the call returns without
infecting anything.  Errors are modelled with `Except`; the state is
untouched when the exception is raised. -/
def startInfection (geo : Geography) (seed : Option String) (pick : ℕ)
    (now : ℚ) (s : SimState) : Except String SimState :=
  if geo.loaded then
    if geo.countries.isEmpty then .ok s
    else
      match seed with
      | none =>
        .error "TypeError: Cannot read properties of null (reading toLowerCase)"
      | some name =>
        match resolveSeed geo.countries name pick with
        | none => .ok s
        | some c =>
          .ok { s with
            connectedPairs := []
            infectionStartTime := some now
            infected := [(c.name, seedRecord c now)]
            transmissions := []
            statsInfected := 1
            isRunning := true }
  else .ok s

/-! ## Tick B — neighbour spread (lines 195–290) -/

/-- Value `dynamicMaxSpread = Math.max(1, Math.floor(1 + accelerationCurve *
(maxSpreadPerInterval - 1)))` with the cubic curve
`accelerationCurve = timeRatio ^ 3` (lines 215–218). -/
def dynamicMaxSpread (cfg : Config) (startRef : Option ℚ) (now : ℚ) : ℕ :=
  (max 1 (Rat.floor (1 + (timeRatio cfg.totalInfectionTime startRef now) ^ 3 *
    (cfg.maxSpreadPerInterval - 1)))).toNat

/-- Loop accumulator of the neighbour-spread tick: the mutated copy
`updated`, the `newTransmissions` array, the connected-pairs ref and
`spreadCount`. -/
structure SpreadAcc where
  updated : InfectionMap
  newTrans : List TransmissionEdge
  pairs : List String
  spreadCount : ℕ
deriving DecidableEq, Repr

/-- The uninfected, not-yet-connected neighbours of `source`
(lines 238–242). -/
def eligibleNeighbors (geo : Geography) (acc : SpreadAcc) (source : String) :
    List Neighbor :=
  (neighborsOf geo source).filter fun n =>
    !hasKey acc.updated n.name && !acc.pairs.contains (getPairKey source n.name)

/-- The pending record installed for a spread target (lines 256–261 and
351–356): progress 0, `startTime = now + delay`, entry point and
centroid at the target's centroid. -/
def pendingRecord (c : Coord) (now delay : ℚ) : InfectionRecord :=
  { centroid := c, progress := 0, startTime := now + delay, entryPoint := c }

/-- One iteration of the `for (const sourceName of shuffledSources)`
body (lines 231–273).  `Math.floor(Math.random() * uninfected.length)`
is always a valid index; it is modelled as `pick % uninfected.length`
for the oracle value `pick`. -/
def spreadStep (geo : Geography) (now : ℚ) (pick : ℕ) (source : String)
    (acc : SpreadAcc) : SpreadAcc :=
  match findCountry geo source with
  | none => acc
  | some _ =>
    match (eligibleNeighbors geo acc source).get?
        (pick % (eligibleNeighbors geo acc source).length) with
    | none => acc
    | some target =>
      match findCountry geo target.name with
      | none => acc
      | some tc =>
        { updated := setKey acc.updated target.name
            (pendingRecord tc.centroid now 2500)
          newTrans := acc.newTrans ++
            [⟨getPairKey source target.name, source, target.name, false⟩]
          pairs := acc.pairs ++ [getPairKey source target.name]
          spreadCount := acc.spreadCount + 1 }

/-- The whole `for` loop, with its `break` once `spreadCount` reaches
the fan-out cap (line 232). -/
def spreadLoop (geo : Geography) (now : ℚ) (maxSpread : ℕ) (picks : ℕ → ℕ) :
    List String → ℕ → SpreadAcc → SpreadAcc
  | [], _, acc => acc
  | source :: rest, k, acc =>
    if maxSpread ≤ acc.spreadCount then acc
    else spreadLoop geo now maxSpread picks rest (k + 1)
      (spreadStep geo now (picks k) source acc)

/-- Value `readyToSpread` (lines 221–223): the names of the entities with
`progress >= neighborSpreadThreshold`. -/
def readySources (cfg : Config) (m : InfectionMap) : List String :=
  (m.filter fun p => cfg.neighborSpreadThreshold ≤ p.2.progress).map Prod.fst

/-- One firing of the neighbour-spread interval (lines 195–290).  The
timer requires `isRunning && geoDataLoaded`; the shuffle
`[...readyToSpread].sort(() => Math.random() - 0.5)` (a permutation
chosen by the engine's random comparator) is supplied by the oracle
`shuffleFn`.  When no transmission happened the callback returns `prev`,
leaving the map, the edge log and the stats untouched; the pair set is a
ref, but the loop only grows it together with `newTransmissions`. -/
def neighborTick (geo : Geography) (cfg : Config)
    (shuffleFn : List String → List String) (picks : ℕ → ℕ) (now : ℚ)
    (s : SimState) : SimState :=
  if s.isRunning && geo.loaded then
    if (geo.countries.length : ℤ) - s.infected.length ≤ 0 then s
    else if (readySources cfg s.infected).isEmpty then s
    else
      let acc := spreadLoop geo now
        (dynamicMaxSpread cfg s.infectionStartTime now) picks
        (shuffleFn (readySources cfg s.infected)) 0
        ⟨s.infected, [], s.connectedPairs, 0⟩
      if acc.newTrans.isEmpty then { s with connectedPairs := acc.pairs }
      else { s with infected := acc.updated,
                    transmissions := s.transmissions ++ acc.newTrans,
                    connectedPairs := acc.pairs,
                    statsInfected := acc.updated.length }
  else s

/-! ## Tick C — long-distance jumps (lines 293–379) -/

/-- The radicand of `geoDistance` (`src/utils/geoUtils.js`, lines
65–69): `dLat * dLat + dLon * dLon`.  The code compares
`Math.sqrt(geoDistanceSq ...) > longDistanceMinDistance`. -/
def geoDistanceSq (lat1 lon1 lat2 lon2 : ℚ) : ℚ :=
  (lat2 - lat1) ^ 2 + (lon2 - lon1) ^ 2

/-- Decidable form of `geoDistance(...) > d`; equivalent to
`d < Real.sqrt (geoDistanceSq ...)` (see `geoDistGt_iff_sqrt_lt`). -/
def geoDistGt (lat1 lon1 lat2 lon2 d : ℚ) : Bool :=
  d < 0 || d ^ 2 < geoDistanceSq lat1 lon1 lat2 lon2

/-- Decidable form of `prev[name].progress >= minProgress` where
`minProgress = 0.85 - accelerationCurve * 0.35` and `accelerationCurve =
Math.pow(timeRatio, 2.5)` (lines 313–319).  For `ratio < 0` JavaScript's
`Math.pow(ratio, 2.5)` is `NaN` and the comparison is false; for
`0 ≤ ratio` the condition `0.85 - p ≤ 0.35 * ratio ^ (5/2)` is decided
by squaring (see `minProgressReached_iff`). -/
def minProgressReached (ratio p : ℚ) : Bool :=
  if ratio < 0 then false
  else if 17/20 - p ≤ 0 then true
  else decide ((17/20 - p) ^ 2 ≤ 49/400 * ratio ^ 5)

/-- The eligible long-jump sources (lines 318–320): infected entities
whose progress has reached the time-decreasing minimum threshold. -/
def longSources (cfg : Config) (startRef : Option ℚ) (now : ℚ)
    (m : InfectionMap) : List String :=
  (m.filter fun p =>
    minProgressReached (timeRatio cfg.totalInfectionTime startRef now)
      p.2.progress).map Prod.fst

/-- Value `uninfectedFar` (lines 331–341): the uninfected roster entries not
yet connected to the source and farther than the minimum distance. -/
def longTargets (geo : Geography) (cfg : Config) (m : InfectionMap)
    (pairs : List String) (sc : Country) (sourceName : String) :
    List Country :=
  geo.countries.filter fun c =>
    !hasKey m c.name &&
    !pairs.contains (getPairKey sourceName c.name) &&
    geoDistGt sc.centroid.lat sc.centroid.lon
      c.centroid.lat c.centroid.lon cfg.longDistanceMinDistance

/-- One firing of the long-distance interval (lines 296–372).  The
Bernoulli draw `Math.random() > effectiveProbability` (line 323) is
abstracted by the oracle `drawPassed` (`false`: the draw failed and the
tick is a no-op); the two uniformly random choices are oracle indices. -/
def longTick (geo : Geography) (cfg : Config) (drawPassed : Bool)
    (pickSource pickTarget : ℕ) (now : ℚ) (s : SimState) : SimState :=
  if s.isRunning && geo.loaded then
    if s.infected.length < 2 then s
    else if (geo.countries.length : ℤ) - s.infected.length ≤ 0 then s
    else if (longSources cfg s.infectionStartTime now s.infected).isEmpty then s
    else if !drawPassed then s
    else
      match (longSources cfg s.infectionStartTime now s.infected).get?
          (pickSource %
            (longSources cfg s.infectionStartTime now s.infected).length) with
      | none => s
      | some sourceName =>
        match findCountry geo sourceName with
        | none => s
        | some sc =>
          match (longTargets geo cfg s.infected s.connectedPairs sc
              sourceName).get? (pickTarget %
                (longTargets geo cfg s.infected s.connectedPairs sc
                  sourceName).length) with
          | none => s
          | some target =>
            { s with
                connectedPairs := s.connectedPairs ++
                  [getPairKey sourceName target.name],
                infected := setKey s.infected target.name
                  (pendingRecord target.centroid now 4000),
                transmissions := s.transmissions ++
                  [⟨getPairKey sourceName target.name, sourceName,
                    target.name, true⟩],
                statsInfected := (setKey s.infected target.name
                  (pendingRecord target.centroid now 4000)).length }
  else s

/-! ## `reset` (lines 447–458) -/

/-- Operation `reset()`: clear everything and stop every timer. -/
def resetOp (s : SimState) : SimState :=
  { s with infected := [], transmissions := [], connectedPairs := [],
           isRunning := false, isRegressing := false,
           regressionComplete := false, statsInfected := 0 }

/-! ## Operations and runs -/

/-- One public operation call or one timer firing, with its time stamp
and its random outcomes. -/
inductive Op where
  | progress (now : ℚ)
  | neighbor (shuffleFn : List String → List String) (picks : ℕ → ℕ) (now : ℚ)
  | longJump (drawPassed : Bool) (pickSource pickTarget : ℕ) (now : ℚ)
  | regress (now : ℚ)
  | start (seed : Option String) (pick : ℕ) (now : ℚ)
  | startRegress (now : ℚ)
  | reset

/-- Apply one operation.  A thrown `TypeError` leaves the engine state
unchanged: the exception propagates to the caller before any mutation. -/
def applyOp (geo : Geography) (cfg : Config) (s : SimState) : Op → SimState
  | .progress now => progressTickState cfg now s
  | .neighbor sh picks now => neighborTick geo cfg sh picks now s
  | .longJump d p q now => longTick geo cfg d p q now s
  | .regress now => regressionTickState now s
  | .start seed pick now =>
    match startInfection geo seed pick now s with
    | .ok s2 => s2
    | .error _ => s
  | .startRegress now => (startRegression geo now s).2
  | .reset => resetOp s

/-- A run: the operations applied in order from the initial state. -/
def runOps (geo : Geography) (cfg : Config) (ops : List Op) : SimState :=
  ops.foldl (applyOp geo cfg) initState

/-! ## A small concrete world, used by witnesses and counterexamples -/

/-- The 3-entity roster of the spec's scenarios: France, Germany, Spain,
with the `France↔Germany (5)`, `France↔Spain (8)`, `Germany↔Spain (6)`
adjacency. -/
def demoGeo : Geography :=
  { countries := [⟨"France", ⟨46, 2⟩⟩, ⟨"Germany", ⟨51, 10⟩⟩,
      ⟨"Spain", ⟨40, -4⟩⟩]
    neighbors :=
      [("France", [⟨"Germany", 5⟩, ⟨"Spain", 8⟩]),
       ("Germany", [⟨"France", 5⟩, ⟨"Spain", 6⟩]),
       ("Spain", [⟨"France", 8⟩, ⟨"Germany", 6⟩])]
    loaded := true }

/-- The default configuration (lines 16–25). -/
def defaultConfig : Config := {}

/-- The state right after `startInfection("France")` at time 1000 on
`demoGeo`. -/
def demoSeeded : SimState :=
  { initState with
      connectedPairs := []
      infectionStartTime := some 1000
      infected := [("France", seedRecord ⟨"France", ⟨46, 2⟩⟩ 1000)]
      transmissions := []
      statsInfected := 1
      isRunning := true }

/-- The progress value the forward tick recomputes for a record with
start time `st` at time `now` (0 while the transmission is in flight).
Every record the engine creates satisfies
`progress ≤ tickValue speed mult now startTime` from its creation on
(new records have progress 0), and each firing of the progress tick
re-establishes it. -/
def tickValue (speed mult now st : ℚ) : ℚ :=
  if now - st < 0 then 0 else min 1 ((now - st) * speed * mult)

/-- A running state on the demo world where France is saturated and
ready to spread. -/
def demoReady : SimState :=
  { initState with
      infected := [("France", ⟨⟨46, 2⟩, 1, 0, ⟨46, 2⟩⟩)]
      isRunning := true
      statsInfected := 1
      infectionStartTime := some 0 }

/-- A mid-regression state on the demo world: France and Germany
infected, regression started at 10000 ms. -/
def demoRegress : SimState :=
  { initState with
      infected := [("France", ⟨⟨46, 2⟩, 1/2, 1000, ⟨46, 2⟩⟩),
                   ("Germany", ⟨⟨51, 10⟩, 1/4, 3000, ⟨51, 10⟩⟩)]
      isRegressing := true
      regressionStartTime := some 10000
      statsInfected := 2 }

/-- Invariant of the neighbour-spread loop, relative to the tick's
starting accumulator `base` (whose `newTrans` is empty): the pair set
and the key list grow exactly by the new transmissions, `spreadCount`
counts them, their ids are distinct, and each new edge was checked
against the pair set, targets a previously-uninfected neighbour of its
source and installed the pending record for it. -/
def SpreadInv (geo : Geography) (now : ℚ) (base acc : SpreadAcc) : Prop :=
  acc.pairs = base.pairs ++ acc.newTrans.map (fun e => e.id) ∧
  keysOf acc.updated = keysOf base.updated ++
    acc.newTrans.map (fun e => e.toName) ∧
  acc.spreadCount = acc.newTrans.length ∧
  (acc.newTrans.map (fun e => e.id)).Nodup ∧
  ∀ e ∈ acc.newTrans,
    e.id = getPairKey e.fromName e.toName ∧
    e.isLongDistance = false ∧
    e.id ∉ base.pairs ∧
    hasKey base.updated e.toName = false ∧
    (∃ nb ∈ neighborsOf geo e.fromName, nb.name = e.toName) ∧
    (∃ tc, findCountry geo e.toName = some tc ∧
      lookupKey acc.updated e.toName = some (pendingRecord tc.centroid now 2500))

/-- The uniqueness invariant of the transmission log: every edge's id
is its pair key and is registered in the connected-pairs set, and the
ids are pairwise distinct. -/
def edgeInv (s : SimState) : Prop :=
  (∀ e ∈ s.transmissions,
    e.id = getPairKey e.fromName e.toName ∧ e.id ∈ s.connectedPairs) ∧
  (s.transmissions.map (fun e => e.id)).Nodup

/-- A world exhibiting the pair-key collision: the two distinct
unordered pairs `{"A-B", "C"}` and `{"A", "B-C"}` share the key
`"A-B-C"`. -/
def collisionGeo : Geography :=
  { countries := [⟨"A-B", ⟨0, 0⟩⟩, ⟨"C", ⟨1, 1⟩⟩, ⟨"A", ⟨2, 2⟩⟩,
      ⟨"B-C", ⟨3, 3⟩⟩]
    neighbors := [("A-B", [⟨"C", 1⟩])]
    loaded := true }

/-- A running state on `collisionGeo` where `"A-B"` is saturated and
the *other* pair `{"A", "B-C"}` is already in the connected-pairs set. -/
def collisionState : SimState :=
  { initState with
      infected := [("A-B", ⟨⟨0, 0⟩, 1, 0, ⟨0, 0⟩⟩)]
      connectedPairs := [getPairKey "A" "B-C"]
      isRunning := true
      statsInfected := 1 }

/-! # Theorems -/

theorem tickValue_nonneg (speed mult now st : ℚ) (hs : 0 ≤ speed)
    (hm : 0 ≤ mult) : 0 ≤ tickValue speed mult now st := by
  unfold tickValue
  split
  · exact le_refl 0
  · next h =>
    have h2 : 0 ≤ now - st := by linarith [not_lt.mp h]
    exact le_min (by norm_num) (mul_nonneg (mul_nonneg h2 hs) hm)

theorem tickValue_le_one (speed mult now st : ℚ) :
    tickValue speed mult now st ≤ 1 := by
  unfold tickValue
  split
  · norm_num
  · exact min_le_left 1 _

theorem tickValue_mono (speed mult mult2 now now2 st : ℚ) (hs : 0 ≤ speed)
    (hm : 0 ≤ mult) (hmm : mult ≤ mult2) (hn : now ≤ now2) :
    tickValue speed mult now st ≤ tickValue speed mult2 now2 st := by
  unfold tickValue
  split
  · next h =>
    split
    · exact le_refl 0
    · next h2 =>
      have h3 : 0 ≤ now2 - st := not_lt.mp h2
      exact le_min (by norm_num) (mul_nonneg (mul_nonneg h3 hs) (le_trans hm hmm))
  · next h =>
    have h1 : 0 ≤ now - st := not_lt.mp h
    have h2 : ¬ (now2 - st < 0) := by intro hc; linarith
    rw [if_neg h2]
    refine min_le_min (le_refl 1) ?_
    have hsm : 0 ≤ (now - st) * speed := by positivity
    calc (now - st) * speed * mult ≤ (now - st) * speed * mult2 :=
          mul_le_mul_of_nonneg_left hmm hsm
      _ ≤ (now2 - st) * speed * mult2 := by
          have : 0 ≤ mult2 := le_trans hm hmm
          have : (now - st) * speed ≤ (now2 - st) * speed :=
            mul_le_mul_of_nonneg_right (by linarith) hs
          nlinarith

theorem speedMultiplier_nonneg (T : ℚ) (ref : Option ℚ) (now : ℚ) :
    0 ≤ speedMultiplier T ref now := by
  unfold speedMultiplier
  positivity

theorem timeRatio_nonneg (T t0 now : ℚ) (hT : 0 < T) (ht : t0 ≤ now) :
    0 ≤ timeRatio T (some t0) now := by
  unfold timeRatio globalElapsed
  have : 0 ≤ (now - t0) / T := by
    apply div_nonneg (by linarith) (le_of_lt hT)
  simp only [le_min_iff]
  exact ⟨by norm_num, this⟩

theorem speedMultiplier_mono (T t0 now now2 : ℚ) (hT : 0 < T) (ht : t0 ≤ now)
    (hn : now ≤ now2) :
    speedMultiplier T (some t0) now ≤ speedMultiplier T (some t0) now2 := by
  have h0 : 0 ≤ timeRatio T (some t0) now := timeRatio_nonneg T t0 now hT ht
  have h1 : timeRatio T (some t0) now ≤ timeRatio T (some t0) now2 := by
    unfold timeRatio globalElapsed
    dsimp only
    refine min_le_min (le_refl 1) ?_
    rw [div_eq_mul_inv, div_eq_mul_inv]
    exact mul_le_mul_of_nonneg_right (by linarith) (inv_nonneg.mpr hT.le)
  unfold speedMultiplier
  nlinarith

theorem infectionSpeed_nonneg (cfg : Config)
    (hT : 18000 < cfg.totalInfectionTime) : 0 ≤ infectionSpeed cfg := by
  unfold infectionSpeed
  have : 0 < cfg.totalInfectionTime / 6 - 3000 := by linarith
  positivity

theorem progressTickRecord_bounds (speed mult now : ℚ) (r : InfectionRecord)
    (hs : 0 ≤ speed) (hm : 0 ≤ mult) (h0 : 0 ≤ r.progress)
    (h1 : r.progress ≤ 1) :
    0 ≤ (progressTickRecord speed mult now r).progress ∧
    (progressTickRecord speed mult now r).progress ≤ 1 := by
  unfold progressTickRecord
  split
  · split
    · exact ⟨h0, h1⟩
    · next h =>
      have h2 : 0 ≤ now - r.startTime := not_lt.mp h
      constructor
      · simp only
        exact le_min (by norm_num) (by positivity)
      · simp only
        exact min_le_left 1 _
  · exact ⟨h0, h1⟩

theorem progressTickRecord_mono (speed mult mult2 now now2 : ℚ)
    (r : InfectionRecord) (hs : 0 ≤ speed) (hm : 0 ≤ mult)
    (hmm : mult ≤ mult2) (hn : now ≤ now2)
    (hinv : r.progress ≤ tickValue speed mult now r.startTime) :
    r.progress ≤ (progressTickRecord speed mult2 now2 r).progress ∧
    (progressTickRecord speed mult2 now2 r).progress ≤
      tickValue speed mult2 now2 r.startTime := by
  have hmono := tickValue_mono speed mult mult2 now now2 r.startTime hs hm hmm hn
  unfold progressTickRecord
  split
  · split
    · next h =>
      -- still in flight at `now2`: the record is unchanged
      exact ⟨le_refl _, hinv.trans hmono⟩
    · next h =>
      -- recomputed: the new progress is exactly `tickValue` at `now2`
      have hv : tickValue speed mult2 now2 r.startTime =
          min 1 ((now2 - r.startTime) * speed * mult2) := by
        unfold tickValue
        rw [if_neg h]
      constructor
      · simp only
        rw [← hv]
        exact le_trans hinv hmono
      · simp only
        rw [hv]
  · exact ⟨le_refl _, le_trans hinv hmono⟩

theorem resolveSeed_nil (name : String) (pick : ℕ) :
    resolveSeed [] name pick = none := rfl

theorem regressionNewProgress_le (elapsed : ℚ) (idx : ℕ) (p : ℚ)
    (hpos : 0 < regressionNewProgress elapsed idx p) :
    regressionNewProgress elapsed idx p ≤ p := by
  unfold regressionNewProgress at hpos ⊢
  have hamt0 : 0 ≤ max 0 (elapsed - (idx : ℚ) * 30) * regressionSpeed :=
    mul_nonneg (le_max_left 0 _) (by norm_num [regressionSpeed])
  rcases le_or_lt (p - max 0 (elapsed - (idx : ℚ) * 30) * regressionSpeed) 0 with h | h
  · rw [max_eq_left h] at hpos
    exact absurd hpos (lt_irrefl 0)
  · rw [max_eq_right h.le]
    linarith

/-- Every entry surviving a regression tick descends from an entry of
the previous map with a strictly positive, non-increased progress. -/
theorem regressionTickMap_entry (regStart : Option ℚ) (now : ℚ)
    (m : InfectionMap) (q : String × InfectionRecord)
    (hq : q ∈ regressionTickMap regStart now m) :
    ∃ rr, (q.1, rr) ∈ m ∧ 0 < q.2.progress ∧ q.2.progress ≤ rr.progress := by
  simp only [regressionTickMap, List.mem_filterMap] at hq
  obtain ⟨p, hp, hf⟩ := hq
  by_cases h : regressionNewProgress (globalElapsed regStart now)
      ((regressionOrder m).indexOf p.1) p.2.progress ≤ 0
  · rw [if_pos h] at hf
    cases hf
  · rw [if_neg h] at hf
    have hpos := lt_of_not_le h
    cases hf
    exact ⟨p.2, hp, hpos, regressionNewProgress_le _ _ _ hpos⟩

/-! ### Association-list and pair-key helper lemmas -/

theorem lookupKey_cons (a : String × InfectionRecord) (t : InfectionMap)
    (k : String) :
    lookupKey (a :: t) k = if a.1 == k then some a.2 else lookupKey t k := by
  by_cases h : (a.1 == k) = true
  · unfold lookupKey
    have hf : List.find? (fun p => p.1 == k) (a :: t) = some a :=
      List.find?_cons_of_pos t h
    rw [hf, if_pos h]
  · unfold lookupKey
    have hf : List.find? (fun p => p.1 == k) (a :: t) =
        List.find? (fun p => p.1 == k) t :=
      List.find?_cons_of_neg t (by simpa using h)
    rw [hf, if_neg h]

theorem lookupKey_append (m1 m2 : InfectionMap) (k : String) :
    lookupKey (m1 ++ m2) k =
      match lookupKey m1 k with
      | some v => some v
      | none => lookupKey m2 k := by
  induction m1 with
  | nil => rfl
  | cons a t ih =>
    rw [List.cons_append, lookupKey_cons, lookupKey_cons]
    by_cases h : (a.1 == k) = true
    · rw [if_pos h, if_pos h]
    · rw [if_neg h, if_neg h, ih]

theorem hasKey_iff_mem_keys (m : InfectionMap) (k : String) :
    hasKey m k = true ↔ k ∈ keysOf m := by
  induction m with
  | nil =>
    constructor
    · intro h; cases h
    · intro h; cases h
  | cons a t ih =>
    unfold hasKey at ih ⊢
    rw [lookupKey_cons]
    by_cases h : (a.1 == k) = true
    · simp only [if_pos h, Option.isSome_some, keysOf, List.map_cons]
      have : a.1 = k := by simpa using h
      simp [this]
    · simp only [if_neg h, keysOf, List.map_cons, List.mem_cons]
      rw [ih]
      have hne : ¬ a.1 = k := by simpa using h
      constructor
      · intro hm; exact Or.inr hm
      · intro hm
        rcases hm with hm | hm
        · exact absurd hm.symm hne
        · exact hm

theorem setKey_of_fresh (m : InfectionMap) (k : String) (v : InfectionRecord)
    (h : hasKey m k = false) : setKey m k v = m ++ [(k, v)] := by
  unfold setKey
  rw [h]
  simp

theorem keysOf_append (m1 m2 : InfectionMap) :
    keysOf (m1 ++ m2) = keysOf m1 ++ keysOf m2 := by
  unfold keysOf
  exact List.map_append _ _ _

theorem lookupKey_single_self (k : String) (v : InfectionRecord) :
    lookupKey [(k, v)] k = some v := by
  rw [lookupKey_cons]
  simp

theorem lookupKey_setKey_self (m : InfectionMap) (k : String)
    (v : InfectionRecord) (h : hasKey m k = false) :
    lookupKey (setKey m k v) k = some v := by
  rw [setKey_of_fresh m k v h, lookupKey_append]
  have : lookupKey m k = none := by
    unfold hasKey at h
    cases hl : lookupKey m k
    · rfl
    · rw [hl] at h; cases h
  rw [this, lookupKey_single_self]

theorem lookupKey_setKey_ne (m : InfectionMap) (k k' : String)
    (v : InfectionRecord) (hfresh : hasKey m k = false) (hne : k' ≠ k) :
    lookupKey (setKey m k v) k' = lookupKey m k' := by
  rw [setKey_of_fresh m k v hfresh, lookupKey_append]
  have hnone : lookupKey [(k, v)] k' = none := by
    rw [lookupKey_cons]
    have : ¬ (k == k') = true := by simpa using fun h => hne h.symm
    rw [if_neg this]
    rfl
  cases hl : lookupKey m k'
  · rw [hnone]
  · rfl

theorem contains_eq_false_iff (l : List String) (a : String) :
    l.contains a = false ↔ a ∉ l := by
  constructor
  · intro h hm
    have : l.contains a = true := by
      rw [List.contains_eq_any_beq]
      exact List.any_eq_true.mpr ⟨a, hm, by simp⟩
    rw [h] at this
    cases this
  · intro h
    cases hc : l.contains a
    · rfl
    · exfalso
      rw [List.contains_eq_any_beq] at hc
      obtain ⟨b, hb, hab⟩ := List.any_eq_true.mp hc
      have : a = b := by simpa using hab
      exact h (this ▸ hb)

theorem charListLe_total (as bs : List Char) :
    charListLe as bs = true ∨ charListLe bs as = true := by
  induction as generalizing bs with
  | nil => exact Or.inl rfl
  | cons a at2 ih =>
    cases bs with
    | nil => exact Or.inr rfl
    | cons b bt =>
      unfold charListLe
      by_cases h1 : a.toNat < b.toNat
      · left
        rw [if_pos h1]
      · by_cases h2 : b.toNat < a.toNat
        · right
          rw [if_pos h2]
        · rw [if_neg h1, if_neg h2, if_neg h2, if_neg h1]
          exact ih bt

theorem charListLe_antisymm (as bs : List Char)
    (h1 : charListLe as bs = true) (h2 : charListLe bs as = true) :
    as = bs := by
  induction as generalizing bs with
  | nil =>
    cases bs with
    | nil => rfl
    | cons b bt => cases h2
  | cons a at2 ih =>
    cases bs with
    | nil => cases h1
    | cons b bt =>
      unfold charListLe at h1 h2
      by_cases ha : a.toNat < b.toNat
      · rw [if_neg (show ¬ b.toNat < a.toNat by omega), if_pos ha] at h2
        cases h2
      · by_cases hb : b.toNat < a.toNat
        · rw [if_neg ha, if_pos hb] at h1
          cases h1
        · rw [if_neg ha, if_neg hb] at h1
          rw [if_neg hb, if_neg ha] at h2
          have hab : a = b := by
            have hn : a.toNat = b.toNat := by omega
            exact Char.ext (UInt32.ext hn)
          rw [hab, ih bt h1 h2]

theorem getPairKey_comm (a b : String) : getPairKey a b = getPairKey b a := by
  unfold getPairKey
  by_cases h1 : strLe a b = true
  · by_cases h2 : strLe b a = true
    · have hab : a = b := by
        have := charListLe_antisymm a.toList b.toList h1 h2
        exact String.ext this
      subst hab
      rfl
    · rw [if_pos h1, if_neg h2]
  · have h2 : strLe b a = true := by
      rcases charListLe_total a.toList b.toList with h | h
      · exact absurd h h1
      · exact h
    rw [if_neg h1, if_pos h2]

/-- The `countP` of a predicate that forces a fixed image under an
injective-on-the-list map is at most 1. -/
theorem countP_le_one_of_nodup_map (l : List TransmissionEdge)
    (p : TransmissionEdge → Bool) (c : String)
    (hnodup : (l.map (fun e => e.id)).Nodup)
    (himg : ∀ e ∈ l, p e = true → e.id = c) : l.countP p ≤ 1 := by
  induction l with
  | nil => simp
  | cons e t ih =>
    rw [List.map_cons, List.nodup_cons] at hnodup
    rw [List.countP_cons]
    by_cases hpe : p e = true
    · have hzero : t.countP p = 0 := by
        rw [List.countP_eq_zero]
        intro e' he' hpe'
        apply hnodup.1
        rw [himg e (List.mem_cons_self e t) hpe,
          ← himg e' (List.mem_cons_of_mem e he') hpe']
        exact List.mem_map_of_mem (fun x => x.id) he'
      rw [hzero, hpe]
      norm_num
    · have : p e = false := by
        cases h : p e
        · rfl
        · exact absurd h hpe
      rw [this]
      have := ih hnodup.2 (fun e' he' => himg e' (List.mem_cons_of_mem e he'))
      simpa using this

/-! ### Neighbour-spread loop lemmas -/

/-- One loop iteration either changes nothing or performs exactly one
infection: it connects a not-yet-connected, uninfected neighbour picked
from the eligibility filter. -/
theorem spreadStep_cases (geo : Geography) (now : ℚ) (pick : ℕ)
    (source : String) (acc : SpreadAcc) :
    spreadStep geo now pick source acc = acc ∨
    ∃ target tc,
      target ∈ eligibleNeighbors geo acc source ∧
      findCountry geo target.name = some tc ∧
      spreadStep geo now pick source acc =
        { updated := setKey acc.updated target.name
            (pendingRecord tc.centroid now 2500)
          newTrans := acc.newTrans ++
            [⟨getPairKey source target.name, source, target.name, false⟩]
          pairs := acc.pairs ++ [getPairKey source target.name]
          spreadCount := acc.spreadCount + 1 } := by
  unfold spreadStep
  cases hfc : findCountry geo source with
  | none => exact Or.inl rfl
  | some sc =>
    dsimp only
    cases hget : (eligibleNeighbors geo acc source).get?
        (pick % (eligibleNeighbors geo acc source).length) with
    | none => exact Or.inl rfl
    | some target =>
      dsimp only
      cases htc : findCountry geo target.name with
      | none => exact Or.inl rfl
      | some tc =>
        exact Or.inr ⟨target, tc, List.get?_mem hget, htc, rfl⟩

/-- The eligibility filter, unpacked. -/
theorem eligibleNeighbors_spec (geo : Geography) (acc : SpreadAcc)
    (source : String) (target : Neighbor)
    (h : target ∈ eligibleNeighbors geo acc source) :
    target ∈ neighborsOf geo source ∧
    hasKey acc.updated target.name = false ∧
    getPairKey source target.name ∉ acc.pairs := by
  unfold eligibleNeighbors at h
  obtain ⟨hmem, hp⟩ := List.mem_filter.mp h
  rw [Bool.and_eq_true, Bool.not_eq_true', Bool.not_eq_true'] at hp
  exact ⟨hmem, hp.1, (contains_eq_false_iff _ _).mp hp.2⟩

/-- One loop iteration preserves the loop invariant, adds at most one
to the spread count, and appends only edges whose source is the
iteration's source. -/
theorem spreadStep_inv (geo : Geography) (now : ℚ) (pick : ℕ)
    (source : String) (base acc : SpreadAcc)
    (h : SpreadInv geo now base acc) :
    SpreadInv geo now base (spreadStep geo now pick source acc) ∧
    (spreadStep geo now pick source acc).spreadCount ≤ acc.spreadCount + 1 ∧
    ∃ d, (spreadStep geo now pick source acc).newTrans = acc.newTrans ++ d ∧
      (d = [] ∨ ∃ e, d = [e] ∧ e.fromName = source) := by
  obtain ⟨hpairs, hkeys, hcount, hnodup, hedges⟩ := h
  rcases spreadStep_cases geo now pick source acc with heq | ⟨target, tc, hmem, htc, heq⟩
  · rw [heq]
    exact ⟨⟨hpairs, hkeys, hcount, hnodup, hedges⟩, by omega,
      [], by simp, Or.inl rfl⟩
  · obtain ⟨hnb, hfresh, hnotpair⟩ := eligibleNeighbors_spec geo acc source target hmem
    rw [heq]
    set key := getPairKey source target.name with hkey
    have hkeynotmap : key ∉ acc.newTrans.map (fun e => e.id) := by
      intro hmem2
      apply hnotpair
      rw [hpairs]
      exact List.mem_append_right _ hmem2
    have hkeynotbase : key ∉ base.pairs := by
      intro hmem2
      apply hnotpair
      rw [hpairs]
      exact List.mem_append_left _ hmem2
    have hfreshbase : hasKey base.updated target.name = false := by
      cases hb : hasKey base.updated target.name
      · rfl
      · exfalso
        have : target.name ∈ keysOf acc.updated := by
          rw [hkeys]
          exact List.mem_append_left _ ((hasKey_iff_mem_keys _ _).mp hb)
        rw [(hasKey_iff_mem_keys _ _).mpr this] at hfresh
        cases hfresh
    refine ⟨⟨?_, ?_, ?_, ?_, ?_⟩, by simp, ?_⟩
    · simp only [hpairs, List.map_append, List.append_assoc]
      rfl
    · simp only [setKey_of_fresh acc.updated target.name _ hfresh,
        keysOf_append, hkeys, List.map_append, List.append_assoc]
      rfl
    · simp only [List.length_append, List.length_singleton, hcount]
    · rw [List.map_append]
      rw [List.nodup_append]
      refine ⟨hnodup, List.nodup_singleton _, ?_⟩
      intro x hx hx2
      simp only [List.map_cons, List.map_nil, List.mem_singleton] at hx2
      rw [hx2] at hx
      exact hkeynotmap hx
    · intro e he
      rcases List.mem_append.mp he with hold | hnew
      · obtain ⟨h1, h2, h3, h4, h5, tc2, htc2, hlk⟩ := hedges e hold
        refine ⟨h1, h2, h3, h4, h5, tc2, htc2, ?_⟩
        rw [← hlk]
        apply lookupKey_setKey_ne acc.updated target.name e.toName _ hfresh
        intro hcontra
        rw [hcontra] at hlk
        unfold hasKey at hfresh
        rw [hlk] at hfresh
        cases hfresh
      · rw [List.mem_singleton] at hnew
        subst hnew
        refine ⟨rfl, rfl, hkeynotbase, hfreshbase,
          ⟨target, hnb, rfl⟩, tc, htc, ?_⟩
        exact lookupKey_setKey_self acc.updated target.name _ hfresh
    · exact ⟨[⟨key, source, target.name, false⟩], rfl,
        Or.inr ⟨_, rfl, rfl⟩⟩

/-- The whole loop preserves the invariant, respects the fan-out cap,
and appends edges whose sources form a sublist of the processed source
list (so with a duplicate-free shuffle, each source infects at most one
neighbour). -/
theorem spreadLoop_inv (geo : Geography) (now : ℚ) (maxSpread : ℕ)
    (picks : ℕ → ℕ) (sources : List String) (k : ℕ) (base acc : SpreadAcc)
    (h : SpreadInv geo now base acc) :
    SpreadInv geo now base (spreadLoop geo now maxSpread picks sources k acc) ∧
    (spreadLoop geo now maxSpread picks sources k acc).spreadCount ≤
      max acc.spreadCount maxSpread ∧
    ∃ d, (spreadLoop geo now maxSpread picks sources k acc).newTrans =
        acc.newTrans ++ d ∧
      (d.map (fun e => e.fromName)).Sublist sources := by
  induction sources generalizing k acc with
  | nil =>
    exact ⟨h, le_max_left _ _, [], by simp [spreadLoop], List.nil_sublist _⟩
  | cons source rest ih =>
    unfold spreadLoop
    by_cases hc : maxSpread ≤ acc.spreadCount
    · rw [if_pos hc]
      exact ⟨h, le_max_left _ _, [], by simp, List.nil_sublist _⟩
    · rw [if_neg hc]
      obtain ⟨hinv1, hcount1, d1, hd1, hd1src⟩ :=
        spreadStep_inv geo now (picks k) source base acc h
      obtain ⟨hinv2, hcount2, d2, hd2, hd2sub⟩ :=
        ih (k + 1) (spreadStep geo now (picks k) source acc) hinv1
      refine ⟨hinv2, ?_, d1 ++ d2, ?_, ?_⟩
      · have : (spreadStep geo now (picks k) source acc).spreadCount ≤
            maxSpread := by omega
        omega
      · rw [hd2, hd1, List.append_assoc]
      · rw [List.map_append]
        rcases hd1src with hnil | ⟨e, hde, hsrc⟩
        · subst hnil
          simp only [List.map_nil, List.nil_append]
          exact hd2sub.cons _
        · subst hde
          simp only [List.map_cons, List.map_nil]
          rw [hsrc]
          exact List.Sublist.cons₂ _ hd2sub

/-- In a map with duplicate-free keys, two entries with the same key
are the same entry. -/
theorem mem_eq_of_nodup_keys (m : InfectionMap)
    (hnodup : (keysOf m).Nodup) (p q : String × InfectionRecord)
    (hp : p ∈ m) (hq : q ∈ m) (hk : p.1 = q.1) : p = q := by
  induction m with
  | nil => cases hp
  | cons a t ih =>
    rw [keysOf, List.map_cons, List.nodup_cons] at hnodup
    rcases List.mem_cons.mp hp with hpa | hpt <;>
      rcases List.mem_cons.mp hq with hqa | hqt
    · rw [hpa, hqa]
    · exfalso
      apply hnodup.1
      subst hpa
      rw [hk]
      exact List.mem_map_of_mem Prod.fst hqt
    · exfalso
      apply hnodup.1
      subst hqa
      rw [← hk]
      exact List.mem_map_of_mem Prod.fst hpt
    · exact ih hnodup.2 hpt hqt

/-- Every entry of a swept map is a previous entry with its progress
recomputed by the staggered linear decrease, and that value positive. -/
theorem regressionTickMap_entry_form (regStart : Option ℚ) (now : ℚ)
    (m : InfectionMap) (q : String × InfectionRecord)
    (hq : q ∈ regressionTickMap regStart now m) :
    ∃ p, p ∈ m ∧
      0 < regressionNewProgress (globalElapsed regStart now)
        ((regressionOrder m).indexOf p.1) p.2.progress ∧
      q = (p.1, { p.2 with progress := (regressionNewProgress
          (globalElapsed regStart now)
          ((regressionOrder m).indexOf p.1) p.2.progress) }) := by
  simp only [regressionTickMap, List.mem_filterMap] at hq
  obtain ⟨p, hp, hf⟩ := hq
  by_cases h : regressionNewProgress (globalElapsed regStart now)
      ((regressionOrder m).indexOf p.1) p.2.progress ≤ 0
  · rw [if_pos h] at hf
    cases hf
  · rw [if_neg h] at hf
    exact ⟨p, hp, lt_of_not_le h, (Option.some.inj hf).symm⟩

/-- C1. Progress stays within `[0,1]` and moves monotonically.  For
the forward progress tick — under the configuration constraint
`totalInfectionTime > 18000` ms that makes `infectionSpeed`
non-negative (the default is 900000) and for tick times at or after the
clock start — a record within `[0,1]` stays within `[0,1]`, and a
record whose progress is consistent with the tick formula (true of
every record the engine creates: all records start at progress 0, and
each firing re-establishes consistency per `progressTickRecord_mono`)
never decreases across successive ticks `now1 ≤ now2`.  For the
regression tick, every surviving record's progress is strictly positive
and no larger than its previous value — non-increasing, and still in
`[0,1]` — while records that reach 0 are deleted. -/
theorem progress_range_and_monotonicity (cfg : Config) (t0 now1 now2 : ℚ)
    (r : InfectionRecord) (hT : 18000 < cfg.totalInfectionTime)
    (ht : t0 ≤ now1) (hn : now1 ≤ now2) :
    (0 ≤ r.progress → r.progress ≤ 1 →
      0 ≤ (progressTickRecord (infectionSpeed cfg)
          (speedMultiplier cfg.totalInfectionTime (some t0) now2) now2 r).progress ∧
      (progressTickRecord (infectionSpeed cfg)
          (speedMultiplier cfg.totalInfectionTime (some t0) now2) now2 r).progress ≤ 1) ∧
    (r.progress ≤ tickValue (infectionSpeed cfg)
        (speedMultiplier cfg.totalInfectionTime (some t0) now1) now1 r.startTime →
      r.progress ≤ (progressTickRecord (infectionSpeed cfg)
          (speedMultiplier cfg.totalInfectionTime (some t0) now2) now2 r).progress) ∧
    (∀ (regStart : Option ℚ) (nowr : ℚ) (m : InfectionMap)
        (q : String × InfectionRecord), q ∈ regressionTickMap regStart nowr m →
      ∃ rr, (q.1, rr) ∈ m ∧ 0 < q.2.progress ∧ q.2.progress ≤ rr.progress) := by
  have hs := infectionSpeed_nonneg cfg hT
  have hm1 := speedMultiplier_nonneg cfg.totalInfectionTime (some t0) now1
  have hmono := speedMultiplier_mono cfg.totalInfectionTime t0 now1 now2
    (by linarith) ht hn
  refine ⟨?_, ?_, ?_⟩
  · intro h0 h1
    exact progressTickRecord_bounds _ _ _ r hs
      (speedMultiplier_nonneg _ _ _) h0 h1
  · intro hinv
    exact (progressTickRecord_mono _ _ _ _ _ r hs hm1 hmono hn hinv).1
  · intro regStart nowr m q hq
    exact regressionTickMap_entry regStart nowr m q hq

/-- Witness for `progress_range_and_monotonicity`: the France seed
record of the demo run, ticked at 3000 ms after a tick at 2000 ms, on
the default configuration. -/
theorem progress_range_and_monotonicity_witness :
    0 ≤ (progressTickRecord (infectionSpeed defaultConfig)
        (speedMultiplier defaultConfig.totalInfectionTime (some 1000) 3000) 3000
        (seedRecord ⟨"France", ⟨46, 2⟩⟩ 1000)).progress ∧
    (progressTickRecord (infectionSpeed defaultConfig)
        (speedMultiplier defaultConfig.totalInfectionTime (some 1000) 3000) 3000
        (seedRecord ⟨"France", ⟨46, 2⟩⟩ 1000)).progress ≤ 1 ∧
    (seedRecord ⟨"France", ⟨46, 2⟩⟩ 1000).progress ≤
      (progressTickRecord (infectionSpeed defaultConfig)
        (speedMultiplier defaultConfig.totalInfectionTime (some 1000) 3000) 3000
        (seedRecord ⟨"France", ⟨46, 2⟩⟩ 1000)).progress := by
  have hT : (18000 : ℚ) < defaultConfig.totalInfectionTime := by
    show (18000 : ℚ) < 900000
    norm_num
  have h := progress_range_and_monotonicity defaultConfig 1000 2000 3000
    (seedRecord ⟨"France", ⟨46, 2⟩⟩ 1000) hT (by norm_num) (by norm_num)
  have hinv : (seedRecord ⟨"France", ⟨46, 2⟩⟩ 1000).progress ≤
      tickValue (infectionSpeed defaultConfig)
        (speedMultiplier defaultConfig.totalInfectionTime (some 1000) 2000)
        2000 (seedRecord ⟨"France", ⟨46, 2⟩⟩ 1000).startTime :=
    tickValue_nonneg _ _ _ _ (infectionSpeed_nonneg defaultConfig hT)
      (speedMultiplier_nonneg _ _ _)
  have hb := h.1 (le_refl 0) (by show (0 : ℚ) ≤ 1; norm_num)
  exact ⟨hb.1, hb.2, h.2.1 hinv⟩

/-- C5. The regression tick sweeps the infected entities in
descending `startTime` order (most recently infected first; the sweep
order is a permutation of the keys, sorted by descending start time),
staggering each entity by `index * 30` ms before its progress decreases
linearly at `1/20000` per ms; an entity whose recomputed progress is
`≤ 0` is deleted, one with positive recomputed progress survives with
exactly that progress; when the swept map is empty the tick stops the
regression, raises `regressionComplete` and clears the transmission
list and the connected-pairs set; and a tick when `isRegressing` is
false (as it is after completion) is a no-op. -/
theorem regression_tick_spec (now : ℚ) (s : SimState) :
    (s.isRegressing = false → regressionTickState now s = s) ∧
    (s.isRegressing = true →
      (regressionTickState now s).infected =
        regressionTickMap s.regressionStartTime now s.infected ∧
      (regressionOrder s.infected).Perm (keysOf s.infected) ∧
      (regressionOrder s.infected).Sorted
        (fun a b => startTimeOf s.infected b ≤ startTimeOf s.infected a) ∧
      (∀ p ∈ s.infected,
        0 < regressionNewProgress (globalElapsed s.regressionStartTime now)
            ((regressionOrder s.infected).indexOf p.1) p.2.progress →
        (p.1, { p.2 with progress := (regressionNewProgress
            (globalElapsed s.regressionStartTime now)
            ((regressionOrder s.infected).indexOf p.1) p.2.progress) }) ∈
          regressionTickMap s.regressionStartTime now s.infected) ∧
      ((keysOf s.infected).Nodup → ∀ p ∈ s.infected,
        regressionNewProgress (globalElapsed s.regressionStartTime now)
            ((regressionOrder s.infected).indexOf p.1) p.2.progress ≤ 0 →
        p.1 ∉ keysOf (regressionTickMap s.regressionStartTime now s.infected)) ∧
      (regressionTickMap s.regressionStartTime now s.infected = [] →
        (regressionTickState now s).infected = [] ∧
        (regressionTickState now s).isRegressing = false ∧
        (regressionTickState now s).regressionComplete = true ∧
        (regressionTickState now s).transmissions = [] ∧
        (regressionTickState now s).connectedPairs = [])) := by
  constructor
  · intro h
    simp [regressionTickState, h]
  · intro h
    have hmap : (regressionTickState now s).infected =
        regressionTickMap s.regressionStartTime now s.infected := by
      unfold regressionTickState
      rw [h]
      simp only [if_true]
      by_cases hch : regressionTickMap s.regressionStartTime now s.infected ≠ s.infected
      · rw [if_pos hch]
        split <;> rfl
      · rw [if_neg hch]
        push_neg at hch
        split <;> simp [hch]
    refine ⟨hmap, List.perm_insertionSort _ _, ?_, ?_, ?_, ?_⟩
    · letI : IsTotal String
          (fun a b => startTimeOf s.infected b ≤ startTimeOf s.infected a) :=
        ⟨fun a b => le_total _ _⟩
      letI : IsTrans String
          (fun a b => startTimeOf s.infected b ≤ startTimeOf s.infected a) :=
        ⟨fun a b c hab hbc => le_trans hbc hab⟩
      exact List.sorted_insertionSort _ _
    · intro p hp hpos
      simp only [regressionTickMap, List.mem_filterMap]
      exact ⟨p, hp, by rw [if_neg (not_le.mpr hpos)]⟩
    · intro hnodup p hp hle hmem
      simp only [keysOf, List.mem_map] at hmem
      obtain ⟨q', hq', hk⟩ := hmem
      obtain ⟨q, hq, hnp, hform⟩ :=
        regressionTickMap_entry_form s.regressionStartTime now s.infected q' hq'
      have hk2 : q.1 = p.1 := by rw [hform] at hk; exact hk
      have heq := mem_eq_of_nodup_keys s.infected hnodup q p hq hp hk2
      rw [heq] at hnp
      exact absurd hnp (not_lt.mpr hle)
    · intro hempty
      have hflags : (regressionTickState now s).isRegressing = false ∧
          (regressionTickState now s).regressionComplete = true ∧
          (regressionTickState now s).transmissions = [] ∧
          (regressionTickState now s).connectedPairs = [] := by
        unfold regressionTickState
        rw [h]
        simp only [if_true, hempty, List.length_nil]
        simp
      exact ⟨by rw [hmap, hempty], hflags.1, hflags.2.1, hflags.2.2.1,
        hflags.2.2.2⟩

unseal Rat.add Rat.sub Rat.mul Rat.inv in
/-- Witness for `regression_tick_spec`: a tick on a non-regressing
state is a no-op, and the demo regression at 40000 ms (elapsed 30000 ms)
empties the two-entity map and completes the regression. -/
theorem regression_tick_spec_witness :
    regressionTickState 5 initState = initState ∧
    (regressionTickState 40000 demoRegress).infected = [] ∧
    (regressionTickState 40000 demoRegress).isRegressing = false ∧
    (regressionTickState 40000 demoRegress).regressionComplete = true ∧
    (regressionTickState 40000 demoRegress).transmissions = [] ∧
    (regressionTickState 40000 demoRegress).connectedPairs = [] := by
  have h := ((regression_tick_spec 40000 demoRegress).2 rfl).2.2.2.2.2
    (by decide)
  exact ⟨(regression_tick_spec 5 initState).1 rfl,
    h.1, h.2.1, h.2.2.1, h.2.2.2.1, h.2.2.2.2⟩

/-- C4. `startRegression()` returns `false` and leaves the whole
state unchanged when the infected count is 0 or equal to the entity
count; otherwise it stops forward spread, records the regression start
time, clears `regressionComplete`, raises `isRegressing` and returns
`true`.  (The code guard is `infectedCount >= countries.length`; on the
reachable states, where at most every entity is infected, this is the
claim's equality test.) -/
theorem startRegression_guard (geo : Geography) (now : ℚ) (s : SimState)
    (hle : s.infected.length ≤ geo.countries.length) :
    ((s.infected.length = 0 ∨ s.infected.length = geo.countries.length) →
      startRegression geo now s = (false, s)) ∧
    (s.infected.length ≠ 0 → s.infected.length ≠ geo.countries.length →
      startRegression geo now s =
        (true, { s with isRunning := false,
                        regressionStartTime := some now,
                        regressionComplete := false,
                        isRegressing := true })) := by
  constructor
  · intro h
    rcases h with h | h
    · simp [startRegression, h]
    · simp [startRegression, h]
  · intro h1 h2
    have h3 : ¬ (s.infected.length = 0 ∨
        geo.countries.length ≤ s.infected.length) := by omega
    simp only [startRegression, if_neg h3]

/-- Witness for `startRegression_guard`: on the demo world, the call is
refused from the empty initial state and accepted from the seeded
state. -/
theorem startRegression_guard_witness :
    startRegression demoGeo 5000 initState = (false, initState) ∧
    startRegression demoGeo 5000 demoSeeded =
      (true, { demoSeeded with isRunning := false,
                               regressionStartTime := some 5000,
                               regressionComplete := false,
                               isRegressing := true }) :=
  ⟨(startRegression_guard demoGeo 5000 initState (by decide)).1
      (Or.inl (by decide)),
   (startRegression_guard demoGeo 5000 demoSeeded (by decide)).2
      (by decide) (by decide)⟩

/-- C3. `startInfection(seedName)` with geography loaded: the seed
is resolved by exact case-insensitive name match, else by
case-insensitive substring match, else as the uniformly-random roster
entry (`pick` is the drawn index) when the roster is non-empty; all
prior infection state (map, edge log, connected pairs) is cleared, the
simulation clock is set to `now`, exactly one record is created for the
seed with progress 0, `startTime = now` (no entry delay) and
`entryPoint` the seed's centroid, `stats.infected` becomes 1 and the
engine is marked running. -/
theorem startInfection_spec (geo : Geography) (s : SimState) (name : String)
    (pick : ℕ) (now : ℚ) (hload : geo.loaded = true) :
    (∀ c, geo.countries.find?
        (fun c => strToLower c.name == strToLower name) = some c →
      resolveSeed geo.countries name pick = some c) ∧
    (geo.countries.find?
        (fun c => strToLower c.name == strToLower name) = none →
      ∀ c, geo.countries.find?
          (fun c => strIncludes (strToLower c.name) (strToLower name)) = some c →
        resolveSeed geo.countries name pick = some c) ∧
    (geo.countries.find?
        (fun c => strToLower c.name == strToLower name) = none →
      geo.countries.find?
        (fun c => strIncludes (strToLower c.name) (strToLower name)) = none →
      pick < geo.countries.length →
      resolveSeed geo.countries name pick = geo.countries.get? pick) ∧
    (∀ c, resolveSeed geo.countries name pick = some c →
      startInfection geo (some name) pick now s =
        .ok { s with
          connectedPairs := []
          infectionStartTime := some now
          infected := [(c.name, seedRecord c now)]
          transmissions := []
          statsInfected := 1
          isRunning := true }) := by
  refine ⟨?_, ?_, ?_, ?_⟩
  · intro c hc
    unfold resolveSeed
    rw [hc]
  · intro h1 c hc
    unfold resolveSeed
    rw [h1, hc]
  · intro h1 h2 hpick
    unfold resolveSeed
    rw [h1, h2]
    cases hcs : geo.countries with
    | nil => rw [hcs] at hpick; simp at hpick
    | cons a t => simp
  · intro c hc
    have hne : geo.countries.isEmpty = false := by
      cases hcs : geo.countries with
      | nil => rw [hcs, resolveSeed_nil] at hc; cases hc
      | cons a t => rfl
    simp [startInfection, hload, hne, hc]

/-- Witness for `startInfection_spec`: the spec's scenario — both
`startInfection("france")` (case-insensitive exact match) and
`startInfection("Fra")` (substring match) resolve to `"France"` on the
demo roster and install the single seed record. -/
theorem startInfection_spec_witness :
    startInfection demoGeo (some "france") 0 1000 initState = .ok demoSeeded ∧
    startInfection demoGeo (some "Fra") 0 1000 initState = .ok demoSeeded :=
  ⟨(startInfection_spec demoGeo initState "france" 0 1000 rfl).2.2.2
      ⟨"France", ⟨46, 2⟩⟩ (by decide),
   (startInfection_spec demoGeo initState "Fra" 0 1000 rfl).2.2.2
      ⟨"France", ⟨46, 2⟩⟩ (by decide)⟩

/-- C9, counterexample. On the loaded 3-entity demo world,
`startInfection(null)` throws: `null.toLowerCase()` is evaluated inside
the first `find` callback, so the call does *not* complete without
error. -/
theorem startInfection_null_throws :
    demoGeo.loaded = true ∧ demoGeo.countries.length = 3 ∧
    startInfection demoGeo none 0 1000 initState =
      .error "TypeError: Cannot read properties of null (reading toLowerCase)" :=
  ⟨rfl, rfl, rfl⟩

/-- C9, amended. `startInfection` never errors for any *string*
seed (the fallback chain always applies); a `null` seed throws a
`TypeError` exactly when the roster is non-empty — with an empty roster
the `find` callbacks never run and the call returns without infecting
anything. -/
theorem startInfection_total_for_strings (geo : Geography) (s : SimState)
    (name : String) (pick : ℕ) (now : ℚ) :
    (startInfection geo (some name) pick now s).isOk = true ∧
    (geo.countries = [] → startInfection geo none pick now s = .ok s) := by
  constructor
  · by_cases hl : geo.loaded = true
    · by_cases he : geo.countries.isEmpty = true
      · simp [startInfection, hl, he, Except.isOk, Except.toBool]
      · cases hr : resolveSeed geo.countries name pick <;>
          simp [startInfection, hl, he, hr, Except.isOk, Except.toBool]
    · simp [startInfection, hl, Except.isOk, Except.toBool]
  · intro hnil
    by_cases hl : geo.loaded = true <;>
      simp [startInfection, hl, hnil]

/-- Witness for `startInfection_total_for_strings`: an unresolvable
string seed still succeeds on the demo world (via the random fallback),
and a `null` seed on an empty, loaded roster is an error-free no-op. -/
theorem startInfection_total_for_strings_witness :
    (startInfection demoGeo (some "Atlantis") 2 7 initState).isOk = true ∧
    startInfection ⟨[], [], true⟩ none 0 7 initState = .ok initState :=
  ⟨(startInfection_total_for_strings demoGeo initState "Atlantis" 2 7).1,
   (startInfection_total_for_strings ⟨[], [], true⟩ initState "x" 0 7).2 rfl⟩

/-- C6. On a neighbour-spread tick: every newly infected target
gains a pending record with progress 0, `startTime = now + 2500` ms and
entry point (and centroid) at the target's centroid; exactly one
`TransmissionEdge {from: source, to: target, isLongDistance: false}` is
appended per new infection (the new keys of the infection map are
exactly the new edges' targets, in order); a source only targets
uninfected neighbours whose pair with it is not in the connected-pairs
set — and since every appended edge registers its pair key, re-running
the tick never re-targets an already-connected pair; the number of new
infections is capped by `dynamicMaxSpread`, which (for a non-negative
time ratio and `maxSpreadPerInterval ≥ 1`) equals
`floor(1 + timeRatio³ · (maxSpreadPerInterval − 1))`; and, the shuffle
being a permutation of the duplicate-free ready list, each source
infects at most one neighbour. -/
theorem neighbor_spread_spec (geo : Geography) (cfg : Config)
    (shuffleFn : List String → List String) (picks : ℕ → ℕ) (now : ℚ)
    (s : SimState)
    (hperm : ∀ l, (shuffleFn l).Perm l)
    (hkeys : (keysOf s.infected).Nodup) :
    (0 ≤ timeRatio cfg.totalInfectionTime s.infectionStartTime now →
      1 ≤ cfg.maxSpreadPerInterval →
      (dynamicMaxSpread cfg s.infectionStartTime now : ℤ) =
        Rat.floor (1 +
          (timeRatio cfg.totalInfectionTime s.infectionStartTime now) ^ 3 *
          (cfg.maxSpreadPerInterval - 1))) ∧
    ∃ newEdges,
      (neighborTick geo cfg shuffleFn picks now s).transmissions =
        s.transmissions ++ newEdges ∧
      keysOf (neighborTick geo cfg shuffleFn picks now s).infected =
        keysOf s.infected ++ newEdges.map (fun e => e.toName) ∧
      (neighborTick geo cfg shuffleFn picks now s).connectedPairs =
        s.connectedPairs ++ newEdges.map (fun e => e.id) ∧
      newEdges.length ≤ dynamicMaxSpread cfg s.infectionStartTime now ∧
      (newEdges.map (fun e => e.fromName)).Nodup ∧
      ∀ e ∈ newEdges,
        e.isLongDistance = false ∧
        e.id = getPairKey e.fromName e.toName ∧
        e.id ∉ s.connectedPairs ∧
        hasKey s.infected e.toName = false ∧
        e.fromName ∈ readySources cfg s.infected ∧
        (∃ nb ∈ neighborsOf geo e.fromName, nb.name = e.toName) ∧
        (∃ tc, findCountry geo e.toName = some tc ∧
          lookupKey (neighborTick geo cfg shuffleFn picks now s).infected
            e.toName = some (pendingRecord tc.centroid now 2500)) := by
  constructor
  · intro hr hm
    unfold dynamicMaxSpread
    have hx : 0 ≤ (timeRatio cfg.totalInfectionTime s.infectionStartTime now)
        ^ 3 * (cfg.maxSpreadPerInterval - 1) :=
      mul_nonneg (pow_nonneg hr 3) (by linarith)
    have h1f : (1 : ℤ) ≤ Rat.floor (1 +
        (timeRatio cfg.totalInfectionTime s.infectionStartTime now) ^ 3 *
        (cfg.maxSpreadPerInterval - 1)) := by
      rw [Rat.le_floor]
      push_cast
      linarith
    rw [max_eq_right h1f, Int.toNat_of_nonneg (by linarith)]
  · by_cases h1 : (s.isRunning && geo.loaded) = true
    case neg =>
      have hres : neighborTick geo cfg shuffleFn picks now s = s := by
        unfold neighborTick
        rw [if_neg h1]
      rw [hres]
      exact ⟨[], by simp, by simp, by simp, by simp, by simp,
        fun e he => absurd he (List.not_mem_nil e)⟩
    case pos =>
    by_cases h2 : (geo.countries.length : ℤ) - s.infected.length ≤ 0
    case pos =>
      have hres : neighborTick geo cfg shuffleFn picks now s = s := by
        unfold neighborTick
        rw [if_pos h1, if_pos h2]
      rw [hres]
      exact ⟨[], by simp, by simp, by simp, by simp, by simp,
        fun e he => absurd he (List.not_mem_nil e)⟩
    case neg =>
    by_cases h3 : (readySources cfg s.infected).isEmpty = true
    case pos =>
      have hres : neighborTick geo cfg shuffleFn picks now s = s := by
        unfold neighborTick
        rw [if_pos h1, if_neg h2, if_pos h3]
      rw [hres]
      exact ⟨[], by simp, by simp, by simp, by simp, by simp,
        fun e he => absurd he (List.not_mem_nil e)⟩
    case neg =>
    -- the loop actually runs
    have hbase : SpreadInv geo now ⟨s.infected, [], s.connectedPairs, 0⟩
        ⟨s.infected, [], s.connectedPairs, 0⟩ := by
      refine ⟨by simp, by simp, rfl, by simp, ?_⟩
      intro e he
      exact absurd he (List.not_mem_nil e)
    obtain ⟨hinv, hcap, d, hd, hdsub⟩ := spreadLoop_inv geo now
      (dynamicMaxSpread cfg s.infectionStartTime now) picks
      (shuffleFn (readySources cfg s.infected)) 0
      ⟨s.infected, [], s.connectedPairs, 0⟩
      ⟨s.infected, [], s.connectedPairs, 0⟩ hbase
    set acc := spreadLoop geo now
      (dynamicMaxSpread cfg s.infectionStartTime now) picks
      (shuffleFn (readySources cfg s.infected)) 0
      ⟨s.infected, [], s.connectedPairs, 0⟩ with hacc
    obtain ⟨hpairs, hkeys2, hcount, hnodup, hedges⟩ := hinv
    have hready_nodup : (readySources cfg s.infected).Nodup := by
      unfold readySources
      exact ((List.filter_sublist _).map Prod.fst).nodup hkeys
    have hshuffled_nodup : (shuffleFn (readySources cfg s.infected)).Nodup :=
      ((hperm _).nodup_iff).mpr hready_nodup
    have hd2 : acc.newTrans = d := by
      rw [hd]
      simp
    have hfromsub : (acc.newTrans.map (fun e => e.fromName)).Sublist
        (shuffleFn (readySources cfg s.infected)) := by
      rw [hd2]
      exact hdsub
    have hfroms_nodup : (acc.newTrans.map (fun e => e.fromName)).Nodup :=
      hfromsub.nodup hshuffled_nodup
    have hlen : acc.newTrans.length ≤
        dynamicMaxSpread cfg s.infectionStartTime now := by
      have := hcap
      rw [← hcount]
      simpa using this
    have hfromready : ∀ e ∈ acc.newTrans,
        e.fromName ∈ readySources cfg s.infected := by
      intro e he
      have h5 : e.fromName ∈ acc.newTrans.map (fun e => e.fromName) :=
        List.mem_map_of_mem _ he
      have h6 := hfromsub.subset h5
      exact (hperm (readySources cfg s.infected)).subset h6
    by_cases h4 : acc.newTrans.isEmpty = true
    case pos =>
      have hnil : acc.newTrans = [] := by
        cases hx : acc.newTrans
        · rfl
        · rw [hx] at h4; cases h4
      have hres : neighborTick geo cfg shuffleFn picks now s =
          { s with connectedPairs := acc.pairs } := by
        unfold neighborTick
        rw [if_pos h1, if_neg h2, if_neg h3]
        simp only [← hacc, h4, if_true]
      have hpairs2 : acc.pairs = s.connectedPairs := by
        rw [hpairs, hnil]
        simp
      rw [hres]
      refine ⟨[], by simp, by simp, by simp [hpairs2], by simp, by simp,
        fun e he => absurd he (List.not_mem_nil e)⟩
    case neg =>
      have hres : neighborTick geo cfg shuffleFn picks now s =
          { s with infected := acc.updated,
                   transmissions := s.transmissions ++ acc.newTrans,
                   connectedPairs := acc.pairs,
                   statsInfected := acc.updated.length } := by
        unfold neighborTick
        rw [if_pos h1, if_neg h2, if_neg h3]
        simp only [← hacc, h4]
        simp
      rw [hres]
      refine ⟨acc.newTrans, rfl, ?_, ?_, hlen, hfroms_nodup, ?_⟩
      · simpa using hkeys2
      · simpa using hpairs
      · intro e he
        obtain ⟨hid, hlong, hnp, hnk, hnb, tc, htc, hlk⟩ := hedges e he
        exact ⟨hlong, hid, by simpa using hnp, by simpa using hnk,
          hfromready e he, hnb, tc, htc, hlk⟩

unseal Rat.add Rat.sub Rat.mul Rat.inv in
/-- Witness for `neighbor_spread_spec`: one tick on the demo world with
France saturated; the cap formula holds at time ratio 0 and the tick's
new edges obey the cap. -/
theorem neighbor_spread_spec_witness :
    (dynamicMaxSpread defaultConfig demoReady.infectionStartTime 800 : ℤ) =
      Rat.floor (1 +
        (timeRatio defaultConfig.totalInfectionTime
          demoReady.infectionStartTime 800) ^ 3 *
        (defaultConfig.maxSpreadPerInterval - 1)) ∧
    ∃ newEdges,
      (neighborTick demoGeo defaultConfig id (fun _ => 0) 800
          demoReady).transmissions = demoReady.transmissions ++ newEdges ∧
      newEdges.length ≤
        dynamicMaxSpread defaultConfig demoReady.infectionStartTime 800 := by
  have h := neighbor_spread_spec demoGeo defaultConfig id (fun _ => 0) 800
    demoReady (fun l => List.Perm.refl l) (by decide)
  refine ⟨h.1 (by decide) (by decide), ?_⟩
  obtain ⟨newEdges, htrans, _, _, hlen, _⟩ := h.2
  exact ⟨newEdges, htrans, hlen⟩

/-! ### Edge-uniqueness invariant -/

theorem edgeInv_of_eq (s s2 : SimState) (h : edgeInv s)
    (ht : s2.transmissions = s.transmissions)
    (hp : s2.connectedPairs = s.connectedPairs) : edgeInv s2 := by
  unfold edgeInv at h ⊢
  rw [ht, hp]
  exact h

theorem edgeInv_of_nil (s2 : SimState) (ht : s2.transmissions = []) :
    edgeInv s2 := by
  unfold edgeInv
  rw [ht]
  exact ⟨fun e he => absurd he (List.not_mem_nil e), by simp⟩

theorem edgeInv_progressTick (cfg : Config) (now : ℚ) (s : SimState)
    (h : edgeInv s) : edgeInv (progressTickState cfg now s) := by
  unfold progressTickState
  split
  · exact edgeInv_of_eq s _ h rfl rfl
  · exact h

theorem edgeInv_regressionTick (now : ℚ) (s : SimState) (h : edgeInv s) :
    edgeInv (regressionTickState now s) := by
  unfold regressionTickState
  by_cases hr : s.isRegressing = true
  · rw [hr]
    simp only [if_true]
    by_cases hlen : (regressionTickMap s.regressionStartTime now s.infected).length = 0
    · rw [if_pos hlen]
      exact edgeInv_of_nil _ (by split <;> rfl)
    · rw [if_neg hlen]
      split
      · exact edgeInv_of_eq s _ h rfl rfl
      · exact h
  · have : s.isRegressing = false := by
      cases hb : s.isRegressing
      · rfl
      · exact absurd hb hr
    rw [this]
    simp only [Bool.false_eq_true, if_false]
    exact h

theorem edgeInv_startRegression (geo : Geography) (now : ℚ) (s : SimState)
    (h : edgeInv s) : edgeInv (startRegression geo now s).2 := by
  by_cases hg : s.infected.length = 0 ∨ geo.countries.length ≤ s.infected.length
  · simp only [startRegression, if_pos hg]
    exact h
  · simp only [startRegression, if_neg hg]
    exact edgeInv_of_eq s
      { s with isRunning := false, regressionStartTime := some now,
               regressionComplete := false, isRegressing := true }
      h rfl rfl

theorem edgeInv_reset (s : SimState) : edgeInv (resetOp s) :=
  edgeInv_of_nil _ rfl

theorem edgeInv_startInfection (geo : Geography) (seed : Option String)
    (pick : ℕ) (now : ℚ) (s s2 : SimState) (h : edgeInv s)
    (hok : startInfection geo seed pick now s = .ok s2) : edgeInv s2 := by
  unfold startInfection at hok
  by_cases hl : geo.loaded = true
  · rw [if_pos hl] at hok
    by_cases he : geo.countries.isEmpty = true
    · rw [if_pos he] at hok
      cases hok
      exact h
    · rw [if_neg he] at hok
      cases seed with
      | none => cases hok
      | some name =>
        dsimp only at hok
        cases hr : resolveSeed geo.countries name pick with
        | none =>
          rw [hr] at hok
          cases hok
          exact h
        | some c =>
          rw [hr] at hok
          cases hok
          exact edgeInv_of_nil _ rfl
  · rw [if_neg hl] at hok
    cases hok
    exact h

theorem edgeInv_neighborTick (geo : Geography) (cfg : Config)
    (shuffleFn : List String → List String) (picks : ℕ → ℕ) (now : ℚ)
    (s : SimState) (h : edgeInv s) :
    edgeInv (neighborTick geo cfg shuffleFn picks now s) := by
  unfold neighborTick
  by_cases h1 : (s.isRunning && geo.loaded) = true
  case neg => rw [if_neg h1]; exact h
  case pos =>
  rw [if_pos h1]
  by_cases h2 : (geo.countries.length : ℤ) - s.infected.length ≤ 0
  case pos => rw [if_pos h2]; exact h
  case neg =>
  rw [if_neg h2]
  by_cases h3 : (readySources cfg s.infected).isEmpty = true
  case pos => rw [if_pos h3]; exact h
  case neg =>
  rw [if_neg h3]
  have hbase : SpreadInv geo now ⟨s.infected, [], s.connectedPairs, 0⟩
      ⟨s.infected, [], s.connectedPairs, 0⟩ := by
    refine ⟨by simp, by simp, rfl, by simp, ?_⟩
    intro e he
    exact absurd he (List.not_mem_nil e)
  obtain ⟨⟨hpairs, _, _, hnodup, hedges⟩, _, _⟩ := spreadLoop_inv geo now
    (dynamicMaxSpread cfg s.infectionStartTime now) picks
    (shuffleFn (readySources cfg s.infected)) 0
    ⟨s.infected, [], s.connectedPairs, 0⟩
    ⟨s.infected, [], s.connectedPairs, 0⟩ hbase
  set acc := spreadLoop geo now
    (dynamicMaxSpread cfg s.infectionStartTime now) picks
    (shuffleFn (readySources cfg s.infected)) 0
    ⟨s.infected, [], s.connectedPairs, 0⟩ with hacc
  simp only [← hacc]
  by_cases h4 : acc.newTrans.isEmpty = true
  · have hnil : acc.newTrans = [] := by
      cases hx : acc.newTrans
      · rfl
      · rw [hx] at h4; cases h4
    rw [if_pos h4]
    exact edgeInv_of_eq s { s with connectedPairs := acc.pairs } h rfl
      (by rw [hpairs, hnil]; simp)
  · rw [if_neg h4]
    constructor
    · intro e he
      rcases List.mem_append.mp he with hold | hnew
      · obtain ⟨hid, hpmem⟩ := h.1 e hold
        refine ⟨hid, ?_⟩
        rw [hpairs]
        exact List.mem_append_left _ hpmem
      · obtain ⟨hid, _, _, _, _, _⟩ := hedges e hnew
        refine ⟨hid, ?_⟩
        rw [hpairs]
        apply List.mem_append_right
        exact List.mem_map_of_mem (fun e => e.id) hnew
    · rw [List.map_append, List.nodup_append]
      refine ⟨h.2, hnodup, ?_⟩
      intro x hxold hxnew
      simp only [List.mem_map] at hxold hxnew
      obtain ⟨eo, heo, hxo⟩ := hxold
      obtain ⟨en, hen, hxn⟩ := hxnew
      obtain ⟨_, hinpairs⟩ := h.1 eo heo
      obtain ⟨_, _, hnotpairs, _, _, _⟩ := hedges en hen
      apply hnotpairs
      rw [hxn, ← hxo]
      exact hinpairs

theorem edgeInv_longTick (geo : Geography) (cfg : Config) (d : Bool)
    (p q : ℕ) (now : ℚ) (s : SimState) (h : edgeInv s) :
    edgeInv (longTick geo cfg d p q now s) := by
  unfold longTick
  by_cases h1 : (s.isRunning && geo.loaded) = true
  case neg => rw [if_neg h1]; exact h
  case pos =>
  rw [if_pos h1]
  by_cases h2 : s.infected.length < 2
  case pos => rw [if_pos h2]; exact h
  case neg =>
  rw [if_neg h2]
  by_cases h3 : (geo.countries.length : ℤ) - s.infected.length ≤ 0
  case pos => rw [if_pos h3]; exact h
  case neg =>
  rw [if_neg h3]
  by_cases h4 : (longSources cfg s.infectionStartTime now s.infected).isEmpty = true
  case pos => rw [if_pos h4]; exact h
  case neg =>
  rw [if_neg h4]
  by_cases h5 : (!d) = true
  case pos => rw [if_pos h5]; exact h
  case neg =>
  rw [if_neg h5]
  cases hsrc : (longSources cfg s.infectionStartTime now s.infected).get?
      (p % (longSources cfg s.infectionStartTime now s.infected).length) with
  | none => exact h
  | some sourceName =>
    dsimp only
    cases hfc : findCountry geo sourceName with
    | none => exact h
    | some sc =>
      dsimp only
      cases hget : (longTargets geo cfg s.infected s.connectedPairs sc
          sourceName).get? (q % (longTargets geo cfg s.infected
            s.connectedPairs sc sourceName).length) with
      | none => exact h
      | some target =>
        have htmem := List.get?_mem hget
        unfold longTargets at htmem
        obtain ⟨_, hcond⟩ := List.mem_filter.mp htmem
        rw [Bool.and_eq_true, Bool.and_eq_true, Bool.not_eq_true',
          Bool.not_eq_true'] at hcond
        have hkeynot : getPairKey sourceName target.name ∉ s.connectedPairs :=
          (contains_eq_false_iff _ _).mp hcond.1.2
        constructor
        · intro e he
          rcases List.mem_append.mp he with hold | hnew
          · obtain ⟨hid, hpmem⟩ := h.1 e hold
            exact ⟨hid, List.mem_append_left _ hpmem⟩
          · rw [List.mem_singleton] at hnew
            subst hnew
            exact ⟨rfl, List.mem_append_right _ (List.mem_singleton_self _)⟩
        · rw [List.map_append, List.nodup_append]
          refine ⟨h.2, by simp, ?_⟩
          intro x hxold hxnew
          simp only [List.map_cons, List.map_nil, List.mem_singleton] at hxnew
          subst hxnew
          simp only [List.mem_map] at hxold
          obtain ⟨eo, heo, hxo⟩ := hxold
          obtain ⟨_, hinpairs⟩ := h.1 eo heo
          apply hkeynot
          rw [← hxo]
          exact hinpairs

theorem edgeInv_applyOp (geo : Geography) (cfg : Config) (s : SimState)
    (op : Op) (h : edgeInv s) : edgeInv (applyOp geo cfg s op) := by
  cases op with
  | progress now => exact edgeInv_progressTick cfg now s h
  | neighbor sh picks now => exact edgeInv_neighborTick geo cfg sh picks now s h
  | longJump d p q now => exact edgeInv_longTick geo cfg d p q now s h
  | regress now => exact edgeInv_regressionTick now s h
  | start seed pick now =>
    have hdef : applyOp geo cfg s (Op.start seed pick now) =
        match startInfection geo seed pick now s with
        | .ok s2 => s2
        | .error _ => s := rfl
    rw [hdef]
    cases hok : startInfection geo seed pick now s with
    | error e => exact h
    | ok s2 => exact edgeInv_startInfection geo seed pick now s s2 h hok
  | startRegress now => exact edgeInv_startRegression geo now s h
  | reset => exact edgeInv_reset s

theorem edgeInv_runOps (geo : Geography) (cfg : Config) (ops : List Op) :
    edgeInv (runOps geo cfg ops) := by
  have hgen : ∀ (l : List Op) (s : SimState), edgeInv s →
      edgeInv (l.foldl (applyOp geo cfg) s) := by
    intro l
    induction l with
    | nil => intro s hs; exact hs
    | cons op rest ih =>
      intro s hs
      exact ih _ (edgeInv_applyOp geo cfg s op hs)
  exact hgen ops initState (edgeInv_of_nil _ rfl)

/-- C2. Per run, transmission edges are unique per unordered pair:
after any sequence of operations from the initial state, at most one
edge whose endpoints are the unordered pair `{A, B}` is in the
transmissions list.  Both spreading ticks consult the connected-pairs
set before appending an edge and register the pair key when they do
(`spreadStep`/`longTick` via `edgeInv`), which makes every edge's id a
registered pair key and the ids pairwise distinct. -/
theorem transmission_pair_unique (geo : Geography) (cfg : Config)
    (ops : List Op) (A B : String) (_hAB : A ≠ B) :
    ((runOps geo cfg ops).transmissions.countP
      (fun e => decide ((e.fromName = A ∧ e.toName = B) ∨
        (e.fromName = B ∧ e.toName = A)))) ≤ 1 := by
  have hinv := edgeInv_runOps geo cfg ops
  apply countP_le_one_of_nodup_map _ _ (getPairKey A B) hinv.2
  intro e he hpe
  rw [decide_eq_true_iff] at hpe
  obtain ⟨hid, _⟩ := hinv.1 e he
  rcases hpe with ⟨hf, ht⟩ | ⟨hf, ht⟩
  · rw [hid, hf, ht]
  · rw [hid, hf, ht, getPairKey_comm]

unseal Rat.add Rat.sub Rat.mul Rat.inv in
/-- Witness for `transmission_pair_unique`: a concrete three-operation
run on the demo world. -/
theorem transmission_pair_unique_witness :
    ((runOps demoGeo defaultConfig
        [Op.start (some "France") 0 1000,
         Op.neighbor id (fun _ => 0) 1800,
         Op.neighbor id (fun _ => 0) 2600]).transmissions.countP
      (fun e => decide ((e.fromName = "France" ∧ e.toName = "Germany") ∨
        (e.fromName = "Germany" ∧ e.toName = "France")))) ≤ 1 :=
  transmission_pair_unique demoGeo defaultConfig
    [Op.start (some "France") 0 1000,
     Op.neighbor id (fun _ => 0) 1800,
     Op.neighbor id (fun _ => 0) 2600] "France" "Germany" (by decide)

unseal Rat.add Rat.sub Rat.mul Rat.inv in
/-- C7, counterexample. `startInfection` does not stop regression:
after `startInfection("France")`, `startRegression()`,
`startInfection("France")` on the demo world, `isRunning` and
`isRegressing` are both true — the second `startInfection` sets
`isRunning` without clearing `isRegressing` (the code never calls
`setIsRegressing(false)` there). -/
theorem regression_and_forward_both_true :
    (runOps demoGeo defaultConfig
      [Op.start (some "France") 0 1000,
       Op.startRegress 2000,
       Op.start (some "France") 0 3000]).isRunning = true ∧
    (runOps demoGeo defaultConfig
      [Op.start (some "France") 0 1000,
       Op.startRegress 2000,
       Op.start (some "France") 0 3000]).isRegressing = true := by
  constructor
  · decide
  · decide

/-- C7, amended. Mutual exclusion holds in one direction only: a
successful `startRegression()` stops the forward spread (`isRunning`
becomes false while `isRegressing` becomes true), but `startInfection`
leaves `isRegressing` untouched, so running forward spread during
regression is reachable (see the counterexample). -/
theorem regression_stops_forward (geo : Geography) (now : ℚ) (s : SimState) :
    ((startRegression geo now s).1 = true →
      (startRegression geo now s).2.isRunning = false ∧
      (startRegression geo now s).2.isRegressing = true) ∧
    (∀ (seed : Option String) (pick : ℕ) (s2 : SimState),
      startInfection geo seed pick now s = .ok s2 →
      s2.isRegressing = s.isRegressing) := by
  constructor
  · intro hret
    unfold startRegression at hret ⊢
    by_cases hg : s.infected.length = 0 ∨
        geo.countries.length ≤ s.infected.length
    · rw [if_pos hg] at hret
      cases hret
    · rw [if_neg hg] at hret ⊢
      exact ⟨rfl, rfl⟩
  · intro seed pick s2 hok
    unfold startInfection at hok
    by_cases hl : geo.loaded = true
    · rw [if_pos hl] at hok
      by_cases he : geo.countries.isEmpty = true
      · rw [if_pos he] at hok
        cases hok
        rfl
      · rw [if_neg he] at hok
        cases seed with
        | none => cases hok
        | some name =>
          dsimp only at hok
          cases hr : resolveSeed geo.countries name pick with
          | none =>
            rw [hr] at hok
            cases hok
            rfl
          | some c =>
            rw [hr] at hok
            cases hok
            rfl
    · rw [if_neg hl] at hok
      cases hok
      rfl

/-- Witness for `regression_stops_forward`: starting regression from
the seeded demo state stops the forward spread, and a fresh
`startInfection` on the mid-regression demo state leaves `isRegressing`
true. -/
theorem regression_stops_forward_witness :
    ((startRegression demoGeo 2000 demoSeeded).2.isRunning = false ∧
      (startRegression demoGeo 2000 demoSeeded).2.isRegressing = true) ∧
    ∃ s2, startInfection demoGeo (some "Spain") 1 3000 demoRegress = .ok s2 ∧
      s2.isRegressing = true :=
  ⟨(regression_stops_forward demoGeo 2000 demoSeeded).1 (by decide),
   ⟨_, rfl,
    ((regression_stops_forward demoGeo 3000 demoRegress).2
      (some "Spain") 1 _ rfl).trans rfl⟩⟩

unseal Rat.add Rat.sub Rat.mul Rat.inv in
/-- C10. The transmission pair key (the two names sorted and joined
by `'-'`) is not injective over unordered name pairs: the distinct
unordered pairs `{"A-B", "C"}` and `{"A", "B-C"}` both map to
`"A-B-C"`, and once the key of one pair is in the connected-pairs set,
a neighbour-spread tick along the other pair is blocked — with
`"A-B"` saturated and `"C"` its sole uninfected neighbour, the tick
creates no record and no edge because the colliding key of
`{"A", "B-C"}` is already in the set. -/
theorem pairKey_collision_blocks :
    getPairKey "A-B" "C" = getPairKey "A" "B-C" ∧
    ¬ (("A-B" = "A" ∧ "C" = "B-C") ∨ ("A-B" = "B-C" ∧ "C" = "A")) ∧
    neighborTick collisionGeo defaultConfig id (fun _ => 0) 1000
      collisionState = collisionState := by
  refine ⟨by decide, by decide, by decide⟩

/-- C8, counterexample. The distance the simulator computes between
latitudes 60/60 and longitudes 0/2 is `sqrt(0² + 2²) = 2`, while the
claimed formula `sqrt(dLat² + (dLon·cos(avgLat))²)` gives
`sqrt(0² + (2·cos 60°)²) = 1`: the code has no `cos(avgLat)`
correction. -/
theorem geoDistance_cos_counterexample :
    Real.sqrt ((geoDistanceSq 60 0 60 2 : ℚ) : ℝ) = 2 ∧
    Real.sqrt (((60 : ℝ) - 60) ^ 2 +
      (((2 : ℝ) - 0) * Real.cos ((((60 : ℝ) + 60) / 2) * Real.pi / 180)) ^ 2)
      = 1 ∧
    (2 : ℝ) ≠ 1 := by
  refine ⟨?_, ?_, by norm_num⟩
  · have h4 : ((geoDistanceSq 60 0 60 2 : ℚ) : ℝ) = (2 : ℝ) ^ 2 := by
      norm_num [geoDistanceSq]
    rw [h4, Real.sqrt_sq (by norm_num)]
  · have hangle : (((60 : ℝ) + 60) / 2) * Real.pi / 180 = Real.pi / 3 := by
      ring
    rw [hangle, Real.cos_pi_div_three]
    norm_num

/-- C8, amended. The centroid distance used by the simulator (the
long-distance jump's minimum-distance filter calls `geoDistance` of
`src/utils/geoUtils.js`) is the planar approximation
`sqrt(dLat² + dLon²)`, with *no* latitude correction; it is symmetric,
and the engine's decidable comparison `geoDistGt` (used in `longTick`)
holds exactly when that square root exceeds the threshold. -/
theorem geoDistance_planar_spec (lat1 lon1 lat2 lon2 d : ℚ) (hd : 0 ≤ d) :
    Real.sqrt ((geoDistanceSq lat1 lon1 lat2 lon2 : ℚ) : ℝ) =
      Real.sqrt (((lat2 : ℝ) - lat1) ^ 2 + ((lon2 : ℝ) - lon1) ^ 2) ∧
    geoDistanceSq lat1 lon1 lat2 lon2 = geoDistanceSq lat2 lon2 lat1 lon1 ∧
    (geoDistGt lat1 lon1 lat2 lon2 d = true ↔
      (d : ℝ) < Real.sqrt ((geoDistanceSq lat1 lon1 lat2 lon2 : ℚ) : ℝ)) := by
  have hsq : ((geoDistanceSq lat1 lon1 lat2 lon2 : ℚ) : ℝ) =
      ((lat2 : ℝ) - lat1) ^ 2 + ((lon2 : ℝ) - lon1) ^ 2 := by
    push_cast [geoDistanceSq]
    ring
  have hnn : (0 : ℝ) ≤ ((geoDistanceSq lat1 lon1 lat2 lon2 : ℚ) : ℝ) := by
    rw [hsq]
    positivity
  refine ⟨by rw [hsq], by unfold geoDistanceSq; ring, ?_⟩
  have hdlt : ¬ (d < 0) := not_lt.mpr hd
  constructor
  · intro hgt
    unfold geoDistGt at hgt
    rw [Bool.or_eq_true, decide_eq_true_iff, decide_eq_true_iff] at hgt
    rcases hgt with hgt | hgt
    · exact absurd hgt hdlt
    · rw [show (d : ℝ) = Real.sqrt ((d : ℝ) ^ 2) from
        (Real.sqrt_sq (by exact_mod_cast hd)).symm]
      apply Real.sqrt_lt_sqrt (by positivity)
      exact_mod_cast hgt
  · intro hlt
    unfold geoDistGt
    rw [Bool.or_eq_true, decide_eq_true_iff, decide_eq_true_iff]
    right
    have hdc : (0 : ℝ) ≤ (d : ℝ) := by exact_mod_cast hd
    have h3 := mul_self_lt_mul_self hdc hlt
    rw [Real.mul_self_sqrt hnn] at h3
    have h2 : (d : ℝ) ^ 2 < ((geoDistanceSq lat1 lon1 lat2 lon2 : ℚ) : ℝ) := by
      rw [pow_two]
      exact h3
    exact_mod_cast h2

unseal Rat.add Rat.sub Rat.mul Rat.inv in
/-- Witness for `geoDistance_planar_spec`: the 3–4–5 pair at distance 5
is farther than threshold 4, and the squared distance is symmetric
there. -/
theorem geoDistance_planar_spec_witness :
    geoDistanceSq 0 0 3 4 = geoDistanceSq 3 4 0 0 ∧
    (4 : ℝ) < Real.sqrt ((geoDistanceSq 0 0 3 4 : ℚ) : ℝ) :=
  ⟨(geoDistance_planar_spec 0 0 3 4 4 (by norm_num)).2.1,
   ((geoDistance_planar_spec 0 0 3 4 4 (by norm_num)).2.2).mp (by decide)⟩

end PlagueMap
